import Mathlib

/-!
# Verification of the TaniHitung calculation core

A shallow embedding of the calculation/validation layer of the TaniHitung
repository (`src/server/src/handlers/calculations.ts`,
`src/server/src/handlers/validation.ts`, `src/server/src/handlers/results.ts`,
and the zod schemas in the shared `schema.ts`), together with proofs of the
behavioural claims about that layer.

Modelling conventions:
* JavaScript numbers are modelled as exact rationals (`ℚ`) plus explicit
  `NaN` / `Infinity` / `-Infinity` constructors where a code path can observe
  them.  IEEE-754 rounding is immaterial to every property proved here (all
  properties are about exact arithmetic relations, field presence and string
  shapes), so the rational model is used throughout.
* Fallible JavaScript code (`throw` / rejected promises) is modelled with
  `Except`; thrown `Error` objects are modelled by their message, thrown
  `ZodError`s by their issue list.
* JSON / JavaScript objects handled by the results formatter are modelled as
  an explicit heap (a list of field lists) so that self-referential objects -
  which the summary fallback must survive - are representable.
-/

namespace TaniHitung

/-- A JavaScript number: finite doubles are modelled as exact rationals,
`NaN` and the two infinities are separate constructors. -/
inductive JsNum where
  | fin (q : ℚ)
  | nan
  | inf
  | ninf
deriving DecidableEq, Repr

/-- A JavaScript value as it can reach the validation helpers: a number, a
string, `null`, `undefined`, a boolean, or an (unspecified) object / array.
Object and array contents are never inspected by the validators modelled
with this type, so they carry no payload here. -/
inductive JsVal where
  | num (n : JsNum)
  | str (s : String)
  | nullV
  | undef
  | boolV (b : Bool)
  | objV
  | arrV
deriving DecidableEq, Repr

/-! ## Number-to-string conversion (JS `ToString` on numbers)

Used by template interpolation and JSON serialization.  For the rationals
that occur in this development the JS output is the exact positional decimal
expansion; this printer produces that expansion (up to 40 fractional digits,
enough for every terminating decimal a double can print; JS exponent
notation for magnitudes `≥ 1e21` / `< 1e-6` is outside the range exercised
by any claim and is not modelled). -/

/-- Fractional decimal digits of `rem / den` (with `rem < den`), up to `fuel`
digits, dropping the tail once the remainder hits zero. -/
def fracDigits : Nat → Nat → Nat → String
  | 0, _, _ => ""
  | _ + 1, 0, _ => ""
  | fuel + 1, rem, den =>
    let r10 := rem * 10
    Nat.repr (r10 / den) ++ fracDigits fuel (r10 % den) den

/-- Decimal expansion of a nonnegative rational. -/
def qToStringNonneg (q : ℚ) : String :=
  let n := q.num.toNat
  let d := q.den
  if n % d = 0 then Nat.repr (n / d)
  else Nat.repr (n / d) ++ "." ++ fracDigits 40 (n % d) d

/-- JS `ToString` for a (finite) number value, modelled on exact rationals. -/
def qToString (q : ℚ) : String :=
  if q < 0 then "-" ++ qToStringNonneg (-q) else qToStringNonneg q

/-! ## The zod input schemas (`schema.ts`)

`z.object({...})` with `z.number()` fields: the type check rejects
non-numbers, `NaN` and the infinities; `.positive(msg)` adds an issue when
the value is `≤ 0`; `.int()` adds an issue on non-integral numbers;
`.default(d)` substitutes `d` when the field is absent or `undefined`;
`.optional()` turns an absent / `undefined` field into "no value".  zod
collects the issues of all fields (it does not stop at the first failing
field); unknown keys are stripped, so the raw-input model carries exactly
the fields some schema can look at. -/

/-- One zod issue, modelled by its path and message. -/
structure ZIssue where
  path : String
  message : String
deriving DecidableEq, Repr

/-- The raw calculation input record (`CalculationInput` in `schema.ts`): an
open JSON object, restricted to the nine field names the five formula
schemas inspect (zod strips all other keys without looking at them). -/
structure CalculationInput where
  area_ha : Option JsVal
  dose_kg_per_ha : Option JsVal
  chicken_count : Option JsVal
  feed_kg_per_chicken_per_day : Option JsVal
  weight_kg : Option JsVal
  dose_mg_per_kg : Option JsVal
  concentration_mg_per_ml : Option JsVal
  yield_ton_per_ha : Option JsVal
  cost_rp_per_ha : Option JsVal
deriving DecidableEq, Repr

/-- The all-fields-absent input `{}`. -/
def emptyInput : CalculationInput := ⟨none, none, none, none, none, none, none, none, none⟩

/-- `z.number()` type check on a present value. -/
def zNumberBase (path : String) (v : JsVal) : Except (List ZIssue) ℚ :=
  match v with
  | .num (.fin q) => .ok q
  | .num .nan => .error [⟨path, "Expected number, received nan"⟩]
  | .num .inf => .error [⟨path, "Number must be finite"⟩]
  | .num .ninf => .error [⟨path, "Number must be finite"⟩]
  | _ => .error [⟨path, "Expected number, received other"⟩]

/-- The `.int()` (when `isInt`) and `.positive(posMsg)` checks, collecting
all failing checks like zod does. -/
def zChecks (path : String) (isInt : Bool) (posMsg : String) (q : ℚ) : List ZIssue :=
  (if isInt && decide (q.den ≠ 1) then [⟨path, "Expected integer, received float"⟩] else [])
    ++ (if q ≤ 0 then [⟨path, posMsg⟩] else [])

/-- Parse one present field value through `z.number()` plus its checks. -/
def zParsePresent (path : String) (isInt : Bool) (posMsg : String) (w : JsVal) :
    Except (List ZIssue) ℚ :=
  match zNumberBase path w with
  | .error e => .error e
  | .ok q =>
    match zChecks path isInt posMsg q with
    | [] => .ok q
    | issues => .error issues

/-- A required numeric field (no default): absent or `undefined` is an error. -/
def zParseReq (path : String) (isInt : Bool) (posMsg : String) (v : Option JsVal) :
    Except (List ZIssue) ℚ :=
  match v with
  | none => .error [⟨path, "Required"⟩]
  | some w =>
    if w = .undef then .error [⟨path, "Required"⟩]
    else zParsePresent path isInt posMsg w

/-- A numeric field with `.default(dflt)`: absent or `undefined` becomes the
default value (all defaults in `schema.ts` satisfy their own checks). -/
def zParseDefault (path : String) (posMsg : String) (dflt : ℚ) (v : Option JsVal) :
    Except (List ZIssue) ℚ :=
  match v with
  | none => .ok dflt
  | some w =>
    if w = .undef then .ok dflt
    else zParsePresent path false posMsg w

/-- A numeric field with `.optional()`: absent or `undefined` becomes `none`. -/
def zParseOpt (path : String) (posMsg : String) (v : Option JsVal) :
    Except (List ZIssue) (Option ℚ) :=
  match v with
  | none => .ok none
  | some w =>
    if w = .undef then .ok none
    else (zParsePresent path false posMsg w).map some

/-- The issues of a field result (empty for a successful field). -/
def errsOf {α : Type} : Except (List ZIssue) α → List ZIssue
  | .ok _ => []
  | .error e => e

/-- Validated output of `fertilizerCalculationInputSchema`. -/
structure FertilizerParsed where
  area_ha : ℚ
  dose_kg_per_ha : ℚ
deriving DecidableEq, Repr

/-- Validated output of `chickenFeedCalculationInputSchema`. -/
structure ChickenFeedParsed where
  chicken_count : ℚ
  feed_kg_per_chicken_per_day : ℚ
deriving DecidableEq, Repr

/-- Validated output of `livestockMedicineCalculationInputSchema`. -/
structure LivestockMedicineParsed where
  weight_kg : ℚ
  dose_mg_per_kg : ℚ
  concentration_mg_per_ml : Option ℚ
deriving DecidableEq, Repr

/-- Validated output of `harvestEstimationCalculationInputSchema`. -/
structure HarvestEstimationParsed where
  area_ha : ℚ
  yield_ton_per_ha : ℚ
deriving DecidableEq, Repr

/-- Validated output of `plantingCostCalculationInputSchema`. -/
structure PlantingCostParsed where
  area_ha : ℚ
  cost_rp_per_ha : ℚ
deriving DecidableEq, Repr

/-- `fertilizerCalculationInputSchema.parse`:
`area_ha` positive, `dose_kg_per_ha` positive with default `100`. -/
def fertilizerCalculationInputSchemaParse (i : CalculationInput) :
    Except (List ZIssue) FertilizerParsed :=
  match zParseReq "area_ha" false "Area must be greater than 0" i.area_ha,
      zParseDefault "dose_kg_per_ha" "Dose must be greater than 0" 100 i.dose_kg_per_ha with
  | .ok a, .ok d => .ok ⟨a, d⟩
  | ra, rb => .error (errsOf ra ++ errsOf rb)

/-- `chickenFeedCalculationInputSchema.parse`:
`chicken_count` integer and positive, `feed_kg_per_chicken_per_day` positive
with default `0.12`. -/
def chickenFeedCalculationInputSchemaParse (i : CalculationInput) :
    Except (List ZIssue) ChickenFeedParsed :=
  match zParseReq "chicken_count" true "Chicken count must be greater than 0" i.chicken_count,
      zParseDefault "feed_kg_per_chicken_per_day" "Feed amount must be greater than 0" (12 / 100)
        i.feed_kg_per_chicken_per_day with
  | .ok c, .ok f => .ok ⟨c, f⟩
  | ra, rb => .error (errsOf ra ++ errsOf rb)

/-- `livestockMedicineCalculationInputSchema.parse`:
`weight_kg` positive, `dose_mg_per_kg` positive,
`concentration_mg_per_ml` positive and optional. -/
def livestockMedicineCalculationInputSchemaParse (i : CalculationInput) :
    Except (List ZIssue) LivestockMedicineParsed :=
  match zParseReq "weight_kg" false "Weight must be greater than 0" i.weight_kg,
      zParseReq "dose_mg_per_kg" false "Dose must be greater than 0" i.dose_mg_per_kg,
      zParseOpt "concentration_mg_per_ml" "Concentration must be greater than 0"
        i.concentration_mg_per_ml with
  | .ok w, .ok d, .ok c => .ok ⟨w, d, c⟩
  | ra, rb, rc => .error (errsOf ra ++ errsOf rb ++ errsOf rc)

/-- `harvestEstimationCalculationInputSchema.parse`:
`area_ha` positive, `yield_ton_per_ha` positive with default `5`. -/
def harvestEstimationCalculationInputSchemaParse (i : CalculationInput) :
    Except (List ZIssue) HarvestEstimationParsed :=
  match zParseReq "area_ha" false "Area must be greater than 0" i.area_ha,
      zParseDefault "yield_ton_per_ha" "Yield must be greater than 0" 5 i.yield_ton_per_ha with
  | .ok a, .ok y => .ok ⟨a, y⟩
  | ra, rb => .error (errsOf ra ++ errsOf rb)

/-- `plantingCostCalculationInputSchema.parse`:
`area_ha` positive, `cost_rp_per_ha` positive with default `1_000_000`. -/
def plantingCostCalculationInputSchemaParse (i : CalculationInput) :
    Except (List ZIssue) PlantingCostParsed :=
  match zParseReq "area_ha" false "Area must be greater than 0" i.area_ha,
      zParseDefault "cost_rp_per_ha" "Cost must be greater than 0" 1000000 i.cost_rp_per_ha with
  | .ok a, .ok c => .ok ⟨a, c⟩
  | ra, rb => .error (errsOf ra ++ errsOf rb)

/-! ## The calculation handlers (`handlers/calculations.ts`, lines 154-291) -/

/-- The secondary output attached to a medicine-dosage result
(`additional_info: { volume_ml }`). -/
structure AdditionalInfo where
  volume_ml : ℚ
deriving DecidableEq, Repr

/-- `CalculationResult` from `schema.ts`. -/
structure CalculationResult where
  result_value : ℚ
  unit_label : String
  additional_info : Option AdditionalInfo
deriving DecidableEq, Repr

/-- An error escaping a calculation handler: either a `ZodError` (carrying
its issues) or a plain `Error` (carrying its message). -/
inductive CalcError where
  | zodErr (issues : List ZIssue)
  | jsError (message : String)
deriving DecidableEq, Repr

/-- `calculateFertilizerRequirement`: validate, then
`result_value = area_ha * dose_kg_per_ha`, unit `kg`. -/
def calculateFertilizerRequirement (inputs : CalculationInput) :
    Except CalcError CalculationResult :=
  match fertilizerCalculationInputSchemaParse inputs with
  | .error e => .error (.zodErr e)
  | .ok v => .ok ⟨v.area_ha * v.dose_kg_per_ha, "kg", none⟩

/-- `calculateChickenFeedDaily`: validate, then
`result_value = chicken_count * feed_kg_per_chicken_per_day`, unit `kg/day`. -/
def calculateChickenFeedDaily (inputs : CalculationInput) :
    Except CalcError CalculationResult :=
  match chickenFeedCalculationInputSchemaParse inputs with
  | .error e => .error (.zodErr e)
  | .ok v => .ok ⟨v.chicken_count * v.feed_kg_per_chicken_per_day, "kg/day", none⟩

/-- `calculateLivestockMedicineDosage`: validate, then
`result_value = weight_kg * dose_mg_per_kg` with unit `mg`; when the
validated `concentration_mg_per_ml` is truthy (present and nonzero), attach
`additional_info.volume_ml = mg_total / concentration`. -/
def calculateLivestockMedicineDosage (inputs : CalculationInput) :
    Except CalcError CalculationResult :=
  match livestockMedicineCalculationInputSchemaParse inputs with
  | .error e => .error (.zodErr e)
  | .ok v =>
    let mg_total := v.weight_kg * v.dose_mg_per_kg
    match v.concentration_mg_per_ml with
    | some c =>
      if c = 0 then .ok ⟨mg_total, "mg", none⟩
      else .ok ⟨mg_total, "mg", some ⟨mg_total / c⟩⟩
    | none => .ok ⟨mg_total, "mg", none⟩

/-- `calculateHarvestEstimation`: validate, then
`result_value = area_ha * yield_ton_per_ha`, unit `ton`. -/
def calculateHarvestEstimation (inputs : CalculationInput) :
    Except CalcError CalculationResult :=
  match harvestEstimationCalculationInputSchemaParse inputs with
  | .error e => .error (.zodErr e)
  | .ok v => .ok ⟨v.area_ha * v.yield_ton_per_ha, "ton", none⟩

/-- `calculatePlantingCost`: validate, then
`result_value = area_ha * cost_rp_per_ha`, unit `Rp`. -/
def calculatePlantingCost (inputs : CalculationInput) :
    Except CalcError CalculationResult :=
  match plantingCostCalculationInputSchemaParse inputs with
  | .error e => .error (.zodErr e)
  | .ok v => .ok ⟨v.area_ha * v.cost_rp_per_ha, "Rp", none⟩

/-- `calculate(formulaKey, inputs)`: dispatch on the formula key; unknown
keys throw `Error("Unknown formula key: " + formulaKey)`. -/
def calculate (formulaKey : String) (inputs : CalculationInput) :
    Except CalcError CalculationResult :=
  match formulaKey with
  | "fertilizer-requirement" => calculateFertilizerRequirement inputs
  | "chicken-feed-daily" => calculateChickenFeedDaily inputs
  | "livestock-medicine-dosage" => calculateLivestockMedicineDosage inputs
  | "harvest-estimation" => calculateHarvestEstimation inputs
  | "planting-cost" => calculatePlantingCost inputs
  | _ => .error (.jsError ("Unknown formula key: " ++ formulaKey))

/-- `validateCalculationInputs(formulaKey, inputs)`: run only the matching
schema's validation, return `true` on success, rethrow the validation error
otherwise; unknown keys throw the same error as `calculate`. -/
def validateCalculationInputs (formulaKey : String) (inputs : CalculationInput) :
    Except CalcError Bool :=
  match formulaKey with
  | "fertilizer-requirement" =>
    match fertilizerCalculationInputSchemaParse inputs with
    | .error e => .error (.zodErr e)
    | .ok _ => .ok true
  | "chicken-feed-daily" =>
    match chickenFeedCalculationInputSchemaParse inputs with
    | .error e => .error (.zodErr e)
    | .ok _ => .ok true
  | "livestock-medicine-dosage" =>
    match livestockMedicineCalculationInputSchemaParse inputs with
    | .error e => .error (.zodErr e)
    | .ok _ => .ok true
  | "harvest-estimation" =>
    match harvestEstimationCalculationInputSchemaParse inputs with
    | .error e => .error (.zodErr e)
    | .ok _ => .ok true
  | "planting-cost" =>
    match plantingCostCalculationInputSchemaParse inputs with
    | .error e => .error (.zodErr e)
    | .ok _ => .ok true
  | _ => .error (.jsError ("Unknown formula key: " ++ formulaKey))



/-! ## Helper lemmas about the zod field parsers -/

instance {ε α : Type} [DecidableEq ε] [DecidableEq α] : DecidableEq (Except ε α)
  | .ok a, .ok b => if h : a = b then .isTrue (by rw [h]) else .isFalse (by simp [h])
  | .ok _, .error _ => .isFalse (by simp)
  | .error _, .ok _ => .isFalse (by simp)
  | .error e, .error f => if h : e = f then .isTrue (by rw [h]) else .isFalse (by simp [h])

theorem zChecks_nil_iff {path : String} {isInt : Bool} {posMsg : String} {q : ℚ} :
    zChecks path isInt posMsg q = [] ↔ ((isInt = true → q.den = 1) ∧ 0 < q) := by
  unfold zChecks
  constructor
  · intro h
    by_cases hq : q ≤ 0
    · exfalso
      simp [hq] at h
    · refine ⟨?_, not_le.1 hq⟩
      intro hi
      by_cases hd : q.den = 1
      · exact hd
      · exfalso
        simp [hi, hd, hq] at h
  · rintro ⟨h2, h1⟩
    have hq : ¬ q ≤ 0 := not_le.2 h1
    cases isInt with
    | false => simp [hq]
    | true => simp [hq, h2 rfl]

theorem zParsePresent_ok {path : String} {isInt : Bool} {posMsg : String} {w : JsVal} {q : ℚ}
    (h : zParsePresent path isInt posMsg w = .ok q) :
    w = .num (.fin q) ∧ 0 < q ∧ (isInt = true → q.den = 1) := by
  unfold zParsePresent zNumberBase at h
  cases w with
  | num n =>
    cases n with
    | fin r =>
      simp only at h
      rcases hz : zChecks path isInt posMsg r with _ | ⟨z, zs⟩ <;> rw [hz] at h <;> simp at h
      subst h
      have := zChecks_nil_iff.1 hz
      exact ⟨rfl, this.2, this.1⟩
    | nan => simp at h
    | inf => simp at h
    | ninf => simp at h
  | str s => simp at h
  | nullV => simp at h
  | undef => simp at h
  | boolV b => simp at h
  | arrV => simp at h
  | objV => simp at h

theorem zParsePresent_num (path : String) (isInt : Bool) (posMsg : String) (q : ℚ)
    (h1 : 0 < q) (h2 : isInt = true → q.den = 1) :
    zParsePresent path isInt posMsg (.num (.fin q)) = .ok q := by
  unfold zParsePresent zNumberBase
  simp [zChecks_nil_iff.2 ⟨h2, h1⟩]

theorem zParseReq_ok {path : String} {isInt : Bool} {posMsg : String} {v : Option JsVal} {q : ℚ}
    (h : zParseReq path isInt posMsg v = .ok q) :
    v = some (.num (.fin q)) ∧ 0 < q ∧ (isInt = true → q.den = 1) := by
  unfold zParseReq at h
  rcases v with _ | w
  · simp at h
  · by_cases hu : w = JsVal.undef <;> simp [hu] at h
    obtain ⟨h1, h2, h3⟩ := zParsePresent_ok h
    exact ⟨by rw [h1], h2, h3⟩

theorem zParseOpt_ok_some {path posMsg : String} {v : Option JsVal} {c : ℚ}
    (h : zParseOpt path posMsg v = .ok (some c)) :
    v = some (.num (.fin c)) ∧ 0 < c := by
  unfold zParseOpt at h
  rcases v with _ | w
  · simp at h
  · by_cases hu : w = JsVal.undef <;> simp [hu] at h
    rcases hp : zParsePresent path false posMsg w with e | r <;> rw [hp] at h <;>
      simp [Except.map] at h
    subst h
    obtain ⟨h1, h2, -⟩ := zParsePresent_ok hp
    exact ⟨by rw [h1], h2⟩

theorem zParseOpt_ok_none {path posMsg : String} {v : Option JsVal}
    (h : zParseOpt path posMsg v = .ok none) : v = none ∨ v = some .undef := by
  unfold zParseOpt at h
  rcases v with _ | w
  · exact Or.inl rfl
  · by_cases hu : w = JsVal.undef
    · exact Or.inr (by rw [hu])
    · simp [hu] at h
      rcases hp : zParsePresent path false posMsg w with e | r <;> rw [hp] at h <;>
        simp [Except.map] at h

theorem zParseOpt_num (path posMsg : String) (c : ℚ) (h1 : 0 < c) :
    zParseOpt path posMsg (some (.num (.fin c))) = .ok (some c) := by
  unfold zParseOpt
  simp [zParsePresent_num path false posMsg c h1 (by simp), Except.map]

theorem calculate_fert_key (i : CalculationInput) :
    calculate "fertilizer-requirement" i = calculateFertilizerRequirement i := rfl

theorem calculate_chicken_key (i : CalculationInput) :
    calculate "chicken-feed-daily" i = calculateChickenFeedDaily i := rfl

theorem calculate_medicine_key (i : CalculationInput) :
    calculate "livestock-medicine-dosage" i = calculateLivestockMedicineDosage i := rfl

theorem calculate_harvest_key (i : CalculationInput) :
    calculate "harvest-estimation" i = calculateHarvestEstimation i := rfl

theorem calculate_cost_key (i : CalculationInput) :
    calculate "planting-cost" i = calculatePlantingCost i := rfl



/-! ## Claims C1 - C5 -/

/-- C1: for every one of the five formula keys and every input that passes
that formula's validation, `calculate` returns a `result_value` equal to the
product of exactly the two documented factors of the validated inputs
(`area_ha * dose_kg_per_ha`, `chicken_count * feed_kg_per_chicken_per_day`,
`weight_kg * dose_mg_per_kg`, `area_ha * yield_ton_per_ha`,
`area_ha * cost_rp_per_ha`), with the documented unit label (`kg`, `kg/day`,
`mg`, `ton`, `Rp`) - never a sum, never clamped, never rounded. -/
theorem calculate_result_value_is_two_factor_product :
    (∀ i v, fertilizerCalculationInputSchemaParse i = .ok v →
        calculate "fertilizer-requirement" i = .ok ⟨v.area_ha * v.dose_kg_per_ha, "kg", none⟩)
      ∧ (∀ i v, chickenFeedCalculationInputSchemaParse i = .ok v →
        calculate "chicken-feed-daily" i =
          .ok ⟨v.chicken_count * v.feed_kg_per_chicken_per_day, "kg/day", none⟩)
      ∧ (∀ i v, livestockMedicineCalculationInputSchemaParse i = .ok v →
        ∃ ai, calculate "livestock-medicine-dosage" i =
          .ok ⟨v.weight_kg * v.dose_mg_per_kg, "mg", ai⟩)
      ∧ (∀ i v, harvestEstimationCalculationInputSchemaParse i = .ok v →
        calculate "harvest-estimation" i = .ok ⟨v.area_ha * v.yield_ton_per_ha, "ton", none⟩)
      ∧ (∀ i v, plantingCostCalculationInputSchemaParse i = .ok v →
        calculate "planting-cost" i = .ok ⟨v.area_ha * v.cost_rp_per_ha, "Rp", none⟩) := by
  refine ⟨?_, ?_, ?_, ?_, ?_⟩
  · intro i v h
    rw [calculate_fert_key]
    unfold calculateFertilizerRequirement
    rw [h]
  · intro i v h
    rw [calculate_chicken_key]
    unfold calculateChickenFeedDaily
    rw [h]
  · intro i v h
    rw [calculate_medicine_key]
    unfold calculateLivestockMedicineDosage
    rw [h]
    cases hc : v.concentration_mg_per_ml with
    | none => exact ⟨none, by simp [hc]⟩
    | some c =>
      by_cases h0 : c = 0
      · exact ⟨none, by simp [hc, h0]⟩
      · exact ⟨some ⟨v.weight_kg * v.dose_mg_per_kg / c⟩, by simp [hc, h0]⟩
  · intro i v h
    rw [calculate_harvest_key]
    unfold calculateHarvestEstimation
    rw [h]
  · intro i v h
    rw [calculate_cost_key]
    unfold calculatePlantingCost
    rw [h]

/-- Witness for C1, at the spec's own examples (`{area_ha: 5, dose_kg_per_ha:
150} → 750 kg`, `{chicken_count: 100, feed: 0.15} → 15 kg/day`,
`{weight_kg: 250, dose: 5, concentration: 100} → 1250 mg`, and two more). -/
theorem calculate_result_value_is_two_factor_product_witness :
    calculate "fertilizer-requirement"
        ⟨some (.num (.fin 5)), some (.num (.fin 150)), none, none, none, none, none, none, none⟩
      = .ok ⟨750, "kg", none⟩
    ∧ calculate "chicken-feed-daily"
        ⟨none, none, some (.num (.fin 100)), some (.num (.fin (mkRat 3 20))), none, none, none,
          none, none⟩
      = .ok ⟨15, "kg/day", none⟩
    ∧ (∃ ai, calculate "livestock-medicine-dosage"
        ⟨none, none, none, none, some (.num (.fin 250)), some (.num (.fin 5)),
          some (.num (.fin 100)), none, none⟩
      = .ok ⟨1250, "mg", ai⟩)
    ∧ calculate "harvest-estimation"
        ⟨some (.num (.fin 2)), none, none, none, none, none, none, some (.num (.fin 6)), none⟩
      = .ok ⟨12, "ton", none⟩
    ∧ calculate "planting-cost"
        ⟨some (.num (.fin 3)), none, none, none, none, none, none, none,
          some (.num (.fin 2000000))⟩
      = .ok ⟨6000000, "Rp", none⟩ := by
  refine ⟨?_, ?_, ?_, ?_, ?_⟩
  · exact (calculate_result_value_is_two_factor_product.1 _ ⟨5, 150⟩ (by decide)).trans
      (by norm_num)
  · exact (calculate_result_value_is_two_factor_product.2.1 _ ⟨100, mkRat 3 20⟩
      (by decide)).trans (by norm_num [Rat.mkRat_eq_div])
  · obtain ⟨ai, hai⟩ := calculate_result_value_is_two_factor_product.2.2.1
      ⟨none, none, none, none, some (.num (.fin 250)), some (.num (.fin 5)),
        some (.num (.fin 100)), none, none⟩ ⟨250, 5, some 100⟩ (by decide)
    exact ⟨ai, hai.trans (by norm_num)⟩
  · exact (calculate_result_value_is_two_factor_product.2.2.2.1 _ ⟨2, 6⟩ (by decide)).trans
      (by norm_num)
  · exact (calculate_result_value_is_two_factor_product.2.2.2.2 _ ⟨3, 2000000⟩ (by decide)).trans
      (by norm_num)

theorem validateCalculationInputs_eq_map (k : String) (i : CalculationInput) :
    validateCalculationInputs k i = (calculate k i).map (fun _ => true) := by
  by_cases h1 : k = "fertilizer-requirement"
  · subst h1
    rw [calculate_fert_key]
    unfold validateCalculationInputs calculateFertilizerRequirement
    cases h : fertilizerCalculationInputSchemaParse i <;> simp [h, Except.map]
  by_cases h2 : k = "chicken-feed-daily"
  · subst h2
    rw [calculate_chicken_key]
    unfold validateCalculationInputs calculateChickenFeedDaily
    cases h : chickenFeedCalculationInputSchemaParse i <;> simp [h, Except.map]
  by_cases h3 : k = "livestock-medicine-dosage"
  · subst h3
    rw [calculate_medicine_key]
    unfold validateCalculationInputs calculateLivestockMedicineDosage
    cases h : livestockMedicineCalculationInputSchemaParse i with
    | error e => simp [h, Except.map]
    | ok v =>
      simp only [h]
      cases hc : v.concentration_mg_per_ml with
      | none => simp [Except.map]
      | some c => by_cases h0 : c = 0 <;> simp [h0, Except.map]
  by_cases h4 : k = "harvest-estimation"
  · subst h4
    rw [calculate_harvest_key]
    unfold validateCalculationInputs calculateHarvestEstimation
    cases h : harvestEstimationCalculationInputSchemaParse i <;> simp [h, Except.map]
  by_cases h5 : k = "planting-cost"
  · subst h5
    rw [calculate_cost_key]
    unfold validateCalculationInputs calculatePlantingCost
    cases h : plantingCostCalculationInputSchemaParse i <;> simp [h, Except.map]
  · unfold validateCalculationInputs calculate
    split <;> simp_all [Except.map]

/-- C2: `validateCalculationInputs(formulaKey, inputs)` fails exactly when
`calculate(formulaKey, inputs)` fails, with the identical error, and returns
`true` exactly when `calculate` succeeds. -/
theorem validateCalculationInputs_refines_calculate (formulaKey : String)
    (inputs : CalculationInput) :
    (∀ e, validateCalculationInputs formulaKey inputs = .error e ↔
        calculate formulaKey inputs = .error e)
      ∧ (validateCalculationInputs formulaKey inputs = .ok true ↔
        ∃ r, calculate formulaKey inputs = .ok r) := by
  rw [validateCalculationInputs_eq_map]
  cases calculate formulaKey inputs <;> simp [Except.map]



/-- C3: for the medicine-dosage formula, on every validated input the result
carries `additional_info.volume_ml = result_value / concentration_mg_per_ml`
exactly when a concentration was supplied, and the `additional_info` field
is absent when it was not. -/
theorem medicine_additional_info_iff_concentration :
    ∀ i v, livestockMedicineCalculationInputSchemaParse i = .ok v →
      (∀ c, v.concentration_mg_per_ml = some c →
          i.concentration_mg_per_ml = some (.num (.fin c)) ∧
            calculate "livestock-medicine-dosage" i =
              .ok ⟨v.weight_kg * v.dose_mg_per_kg, "mg",
                some ⟨v.weight_kg * v.dose_mg_per_kg / c⟩⟩)
        ∧ (v.concentration_mg_per_ml = none →
          (i.concentration_mg_per_ml = none ∨ i.concentration_mg_per_ml = some .undef) ∧
            calculate "livestock-medicine-dosage" i =
              .ok ⟨v.weight_kg * v.dose_mg_per_kg, "mg", none⟩)
        ∧ (∀ c, i.concentration_mg_per_ml = some (.num (.fin c)) →
          v.concentration_mg_per_ml = some c) := by
  intro i v h
  have hcopt : zParseOpt "concentration_mg_per_ml" "Concentration must be greater than 0"
      i.concentration_mg_per_ml = .ok v.concentration_mg_per_ml := by
    unfold livestockMedicineCalculationInputSchemaParse at h
    rcases hw : zParseReq "weight_kg" false "Weight must be greater than 0" i.weight_kg with
        e | w0 <;> rw [hw] at h
    · simp at h
    rcases hd : zParseReq "dose_mg_per_kg" false "Dose must be greater than 0" i.dose_mg_per_kg
        with e | d0 <;> rw [hd] at h
    · simp at h
    rcases hc : zParseOpt "concentration_mg_per_ml" "Concentration must be greater than 0"
        i.concentration_mg_per_ml with e | copt <;> rw [hc] at h
    · simp at h
    · simp only [Except.ok.injEq] at h
      rw [← h]
  refine ⟨?_, ?_, ?_⟩
  · intro c hc
    rw [hc] at hcopt
    obtain ⟨hraw, hpos⟩ := zParseOpt_ok_some hcopt
    refine ⟨hraw, ?_⟩
    rw [calculate_medicine_key]
    unfold calculateLivestockMedicineDosage
    rw [h]
    simp [hc, ne_of_gt hpos]
  · intro hc
    rw [hc] at hcopt
    refine ⟨zParseOpt_ok_none hcopt, ?_⟩
    rw [calculate_medicine_key]
    unfold calculateLivestockMedicineDosage
    rw [h]
    simp [hc]
  · intro c hraw
    rw [hraw] at hcopt
    unfold zParseOpt at hcopt
    simp only [reduceIte] at hcopt
    rcases hp : zParsePresent "concentration_mg_per_ml" false
        "Concentration must be greater than 0" (.num (.fin c)) with e | r <;>
      rw [hp] at hcopt <;> simp [Except.map] at hcopt
    obtain ⟨hw, -, -⟩ := zParsePresent_ok hp
    rw [← hcopt]
    simp only [JsVal.num.injEq, JsNum.fin.injEq] at hw
    rw [hw]

/-- Witness for C3: `{weight_kg: 250, dose_mg_per_kg: 5,
concentration_mg_per_ml: 100}` yields `volume_ml = 12.5`, and the same input
without a concentration yields a result with no `additional_info`. -/
theorem medicine_additional_info_iff_concentration_witness :
    calculate "livestock-medicine-dosage"
        ⟨none, none, none, none, some (.num (.fin 250)), some (.num (.fin 5)),
          some (.num (.fin 100)), none, none⟩
      = .ok ⟨1250, "mg", some ⟨mkRat 25 2⟩⟩
    ∧ calculate "livestock-medicine-dosage"
        ⟨none, none, none, none, some (.num (.fin 500)), some (.num (.fin 10)), none, none, none⟩
      = .ok ⟨5000, "mg", none⟩ := by
  constructor
  · have h := (medicine_additional_info_iff_concentration
      ⟨none, none, none, none, some (.num (.fin 250)), some (.num (.fin 5)),
        some (.num (.fin 100)), none, none⟩ ⟨250, 5, some 100⟩ (by decide)).1 100 rfl
    exact h.2.trans (by norm_num [Rat.mkRat_eq_div])
  · have h := (medicine_additional_info_iff_concentration
      ⟨none, none, none, none, some (.num (.fin 500)), some (.num (.fin 10)), none, none, none⟩
      ⟨500, 10, none⟩ (by decide)).2.1 rfl
    exact h.2.trans (by norm_num)

/-- C4: whole-input validation substitutes the documented defaults for absent
fields (`dose_kg_per_ha := 100`, `feed_kg_per_chicken_per_day := 0.12`,
`yield_ton_per_ha := 5`, `cost_rp_per_ha := 1_000_000`), so `calculate`
computes with the default when the field is omitted; and the integer-marked
`chicken_count` is rejected for every non-integral number. -/
theorem validation_defaults_and_integer_check :
    (∀ i a, i.area_ha = some (.num (.fin a)) → i.dose_kg_per_ha = none → 0 < a →
        calculate "fertilizer-requirement" i = .ok ⟨a * 100, "kg", none⟩)
      ∧ (∀ i n, i.chicken_count = some (.num (.fin n)) →
          i.feed_kg_per_chicken_per_day = none → 0 < n → n.den = 1 →
        calculate "chicken-feed-daily" i = .ok ⟨n * (12 / 100), "kg/day", none⟩)
      ∧ (∀ i a, i.area_ha = some (.num (.fin a)) → i.yield_ton_per_ha = none → 0 < a →
        calculate "harvest-estimation" i = .ok ⟨a * 5, "ton", none⟩)
      ∧ (∀ i a, i.area_ha = some (.num (.fin a)) → i.cost_rp_per_ha = none → 0 < a →
        calculate "planting-cost" i = .ok ⟨a * 1000000, "Rp", none⟩)
      ∧ (∀ i n, i.chicken_count = some (.num (.fin n)) → n.den ≠ 1 →
        ∃ issues, calculate "chicken-feed-daily" i = .error (.zodErr issues)) := by
  refine ⟨?_, ?_, ?_, ?_, ?_⟩
  · intro i a ha hd hpos
    rw [calculate_fert_key]
    unfold calculateFertilizerRequirement fertilizerCalculationInputSchemaParse
    rw [ha, hd]
    simp only [zParseReq, zParseDefault]
    simp [zParsePresent_num "area_ha" false "Area must be greater than 0" a hpos (by simp)]
  · intro i n hc hf hpos hden
    rw [calculate_chicken_key]
    unfold calculateChickenFeedDaily chickenFeedCalculationInputSchemaParse
    rw [hc, hf]
    simp only [zParseReq, zParseDefault]
    simp [zParsePresent_num "chicken_count" true "Chicken count must be greater than 0" n hpos
      (fun _ => hden)]
  · intro i a ha hy hpos
    rw [calculate_harvest_key]
    unfold calculateHarvestEstimation harvestEstimationCalculationInputSchemaParse
    rw [ha, hy]
    simp only [zParseReq, zParseDefault]
    simp [zParsePresent_num "area_ha" false "Area must be greater than 0" a hpos (by simp)]
  · intro i a ha hcost hpos
    rw [calculate_cost_key]
    unfold calculatePlantingCost plantingCostCalculationInputSchemaParse
    rw [ha, hcost]
    simp only [zParseReq, zParseDefault]
    simp [zParsePresent_num "area_ha" false "Area must be greater than 0" a hpos (by simp)]
  · intro i n hc hden
    rw [calculate_chicken_key]
    unfold calculateChickenFeedDaily chickenFeedCalculationInputSchemaParse
    rw [hc]
    have hpres : ∃ e, zParsePresent "chicken_count" true "Chicken count must be greater than 0"
        (.num (.fin n)) = .error e := by
      rcases h : zParsePresent "chicken_count" true "Chicken count must be greater than 0"
          (.num (.fin n)) with e | r
      · exact ⟨e, rfl⟩
      · obtain ⟨h1, -, h3⟩ := zParsePresent_ok h
        simp only [JsVal.num.injEq, JsNum.fin.injEq] at h1
        exact absurd (h1 ▸ h3 rfl) hden
    obtain ⟨e, he⟩ := hpres
    have hreq : zParseReq "chicken_count" true "Chicken count must be greater than 0"
        (some (.num (.fin n))) = .error e := by
      simp only [zParseReq]
      simp [he]
    rw [hreq]
    exact ⟨_, rfl⟩

/-- Witness for C4: each default branch at a concrete input (including the
spec's `{area_ha: 2.5} → 250 kg`), and rejection of `chicken_count = 2.5`. -/
theorem validation_defaults_and_integer_check_witness :
    calculate "fertilizer-requirement"
        ⟨some (.num (.fin (mkRat 5 2))), none, none, none, none, none, none, none, none⟩
      = .ok ⟨250, "kg", none⟩
    ∧ calculate "chicken-feed-daily"
        ⟨none, none, some (.num (.fin 50)), none, none, none, none, none, none⟩
      = .ok ⟨6, "kg/day", none⟩
    ∧ calculate "harvest-estimation"
        ⟨some (.num (.fin 2)), none, none, none, none, none, none, none, none⟩
      = .ok ⟨10, "ton", none⟩
    ∧ calculate "planting-cost"
        ⟨some (.num (.fin 2)), none, none, none, none, none, none, none, none⟩
      = .ok ⟨2000000, "Rp", none⟩
    ∧ (∃ issues, calculate "chicken-feed-daily"
        ⟨none, none, some (.num (.fin (mkRat 5 2))), none, none, none, none, none, none⟩
      = .error (.zodErr issues)) := by
  refine ⟨?_, ?_, ?_, ?_, ?_⟩
  · exact (validation_defaults_and_integer_check.1 _ (mkRat 5 2) rfl rfl (by norm_num
      [Rat.mkRat_eq_div])).trans (by norm_num [Rat.mkRat_eq_div])
  · exact (validation_defaults_and_integer_check.2.1 _ 50 rfl rfl (by norm_num)
      (by decide)).trans (by norm_num)
  · exact (validation_defaults_and_integer_check.2.2.1 _ 2 rfl rfl (by norm_num)).trans
      (by norm_num)
  · exact (validation_defaults_and_integer_check.2.2.2.1 _ 2 rfl rfl (by norm_num)).trans
      (by norm_num)
  · exact validation_defaults_and_integer_check.2.2.2.2 _ (mkRat 5 2) rfl (by decide)

/-- C5: for every formula key outside the five registered ones and every
input, both `calculate` and `validateCalculationInputs` fail with the error
`Unknown formula key: {key}` - whose message ends with the offending key -
and never produce a result. -/
theorem unknown_formula_key_error (formulaKey : String) (inputs : CalculationInput)
    (h1 : formulaKey ≠ "fertilizer-requirement") (h2 : formulaKey ≠ "chicken-feed-daily")
    (h3 : formulaKey ≠ "livestock-medicine-dosage") (h4 : formulaKey ≠ "harvest-estimation")
    (h5 : formulaKey ≠ "planting-cost") :
    calculate formulaKey inputs = .error (.jsError ("Unknown formula key: " ++ formulaKey))
      ∧ validateCalculationInputs formulaKey inputs =
        .error (.jsError ("Unknown formula key: " ++ formulaKey))
      ∧ ∃ prefixText, "Unknown formula key: " ++ formulaKey = prefixText ++ formulaKey := by
  refine ⟨?_, ?_, "Unknown formula key: ", rfl⟩
  · unfold calculate
    split <;> simp_all
  · unfold validateCalculationInputs
    split <;> simp_all

/-- Witness for C5 at the spec's own example `calculate('unknown-key', {})`. -/
theorem unknown_formula_key_error_witness :
    calculate "unknown-key" emptyInput =
        .error (.jsError ("Unknown formula key: " ++ "unknown-key"))
      ∧ validateCalculationInputs "unknown-key" emptyInput =
        .error (.jsError ("Unknown formula key: " ++ "unknown-key"))
      ∧ ∃ prefixText, "Unknown formula key: " ++ "unknown-key" = prefixText ++ "unknown-key" :=
  unknown_formula_key_error "unknown-key" emptyInput (by decide) (by decide) (by decide)
    (by decide) (by decide)




/-! ## `handlers/validation.ts` (lines 1-202)

The validators receive arbitrary JavaScript values; strings are handled as
`List Char` internally.  `parseFloat`, `trim`, `toLowerCase` and the e-mail
regular expression are modelled character-exactly on the code points the
code can distinguish (the regex character classes are pure ASCII). -/

/-- JS whitespace as recognised by `String.prototype.trim` / `parseFloat`
(ASCII whitespace, NBSP, the line separators, BOM). -/
def isJsWs (c : Char) : Bool :=
  (9 ≤ c.toNat && c.toNat ≤ 13) || c.toNat == 32 || c.toNat == 160 ||
    c.toNat == 8232 || c.toNat == 8233 || c.toNat == 65279

/-- `trim()` on a character list: drop whitespace at both ends. -/
def jsTrimList (l : List Char) : List Char :=
  ((l.dropWhile isJsWs).reverse.dropWhile isJsWs).reverse

/-- `String.prototype.trim`. -/
def jsTrim (s : String) : String := ⟨jsTrimList s.data⟩

/-- Greedily read decimal digits from the front, as digit values. -/
def takeDigits : List Char → List Nat × List Char
  | [] => ([], [])
  | c :: rest =>
    if 48 ≤ c.toNat && c.toNat ≤ 57 then
      let p := takeDigits rest
      ((c.toNat - 48) :: p.1, p.2)
    else ([], c :: rest)

/-- The number with the given decimal digits. -/
def digitsToNat (ds : List Nat) : Nat := ds.foldl (fun a d => a * 10 + d) 0

/-- The optional exponent suffix `e`/`E` `[+-]? digits` of a float literal:
its signed value when well formed, `0` otherwise (`parseFloat` ignores a
malformed exponent, keeping the mantissa's value). -/
def parseExpSuffix (l : List Char) : Int :=
  match l with
  | [] => 0
  | c :: rest =>
    if c.toNat == 101 || c.toNat == 69 then
      let p : Bool × List Char :=
        match rest with
        | [] => (false, [])
        | d :: r3 =>
          if d.toNat == 43 then (false, r3)
          else if d.toNat == 45 then (true, r3) else (false, rest)
      let eds := (takeDigits p.2).1
      if eds.isEmpty then 0
      else if p.1 then -(digitsToNat eds : Int) else (digitsToNat eds : Int)
    else 0

/-- JS `parseFloat`: skip leading whitespace, optional sign, then either the
literal `Infinity` or the longest decimal-literal prefix
(`digits [. digits] [exponent]`); `NaN` when no numeric prefix exists.
Values are exact rationals (double rounding and overflow-to-`Infinity` of
extreme literals are not modelled). -/
def jsParseFloat (s : String) : JsNum :=
  let l := s.data.dropWhile isJsWs
  let p : Bool × List Char :=
    match l with
    | [] => (false, [])
    | c :: rest =>
      if c.toNat == 43 then (false, rest)
      else if c.toNat == 45 then (true, rest) else (false, l)
  let neg := p.1
  let l2 := p.2
  if ("Infinity".data).isPrefixOf l2 then (if neg then .ninf else .inf)
  else
    let ip := takeDigits l2
    let fp : List Nat × List Char :=
      match ip.2 with
      | [] => ([], [])
      | c :: rest => if c.toNat == 46 then takeDigits rest else ([], c :: rest)
    if ip.1.isEmpty && fp.1.isEmpty then .nan
    else
      let mant : Nat := digitsToNat (ip.1 ++ fp.1)
      let exp : Int := parseExpSuffix fp.2 - (fp.1.length : Int)
      let sgn : Int := if neg then -1 else 1
      if 0 ≤ exp then .fin (mkRat (sgn * ((mant * 10 ^ exp.toNat : Nat) : Int)) 1)
      else .fin (mkRat (sgn * (mant : Int)) (10 ^ (-exp).toNat))

/-- JS truthiness of `numValue <= 0` (`NaN <= 0` and `Infinity <= 0` are
false, `-Infinity <= 0` is true). -/
def jsNonPos : JsNum → Bool
  | .fin q => decide (q ≤ 0)
  | .nan => false
  | .inf => false
  | .ninf => true

/-- `validatePositiveNumber(value, fieldName)` (`validation.ts` 47-79):
strings go through `parseFloat(value.trim())` and fail on `NaN`; numbers
fail on `NaN` and non-finite values; every other type fails; then values
`<= 0` fail with the greater-than-0 message; the coerced number is
returned. -/
def validatePositiveNumber (value : JsVal) (fieldName : String) : Except String JsNum :=
  match value with
  | .str s =>
    let parsed := jsParseFloat (jsTrim s)
    if parsed = .nan then .error ("Enter a valid number for " ++ fieldName)
    else if jsNonPos parsed then .error ("Enter a number greater than 0 for " ++ fieldName)
    else .ok parsed
  | .num n =>
    if n = .nan ∨ n = .inf ∨ n = .ninf then .error ("Enter a valid number for " ++ fieldName)
    else if jsNonPos n then .error ("Enter a number greater than 0 for " ++ fieldName)
    else .ok n
  | _ => .error ("Enter a valid number for " ++ fieldName)



/-- C8: `validatePositiveNumber(value, fieldName)` accepts a finite number
or a numeric string - one whose `parseFloat` after trimming the
leading/trailing whitespace is not `NaN` - and returns the coerced number;
it rejects the number values `NaN`, `Infinity` and `-Infinity`, non-numeric
strings, `null`, `undefined`, booleans, objects and arrays with the
invalid-number message, and rejects coerced values `≤ 0` (including the
`-Infinity`-parsing strings) with a message containing `greater than 0`.
(A string parsing to `+Infinity`, such as `"Infinity"`, is coerced and then
accepted by the greater-than-0 gate.) -/
theorem validatePositiveNumber_spec (value : JsVal) (fieldName : String) :
    (∀ q : ℚ, value = .num (.fin q) → 0 < q →
        validatePositiveNumber value fieldName = .ok (.fin q))
      ∧ (∀ q : ℚ, value = .num (.fin q) → q ≤ 0 →
        validatePositiveNumber value fieldName =
          .error ("Enter a number greater than 0 for " ++ fieldName))
      ∧ ((value = .num .nan ∨ value = .num .inf ∨ value = .num .ninf) →
        validatePositiveNumber value fieldName =
          .error ("Enter a valid number for " ++ fieldName))
      ∧ (∀ s q, value = .str s → jsParseFloat (jsTrim s) = .fin q → 0 < q →
        validatePositiveNumber value fieldName = .ok (.fin q))
      ∧ (∀ s q, value = .str s → jsParseFloat (jsTrim s) = .fin q → q ≤ 0 →
        validatePositiveNumber value fieldName =
          .error ("Enter a number greater than 0 for " ++ fieldName))
      ∧ (∀ s, value = .str s → jsParseFloat (jsTrim s) = .nan →
        validatePositiveNumber value fieldName =
          .error ("Enter a valid number for " ++ fieldName))
      ∧ (∀ s, value = .str s → jsParseFloat (jsTrim s) = .inf →
        validatePositiveNumber value fieldName = .ok .inf)
      ∧ (∀ s, value = .str s → jsParseFloat (jsTrim s) = .ninf →
        validatePositiveNumber value fieldName =
          .error ("Enter a number greater than 0 for " ++ fieldName))
      ∧ ((value = .nullV ∨ value = .undef ∨ value = .objV ∨ value = .arrV ∨
          (∃ b, value = .boolV b)) →
        validatePositiveNumber value fieldName =
          .error ("Enter a valid number for " ++ fieldName))
      ∧ (∃ pre post, ("Enter a number greater than 0 for " ++ fieldName : String) =
          pre ++ "greater than 0" ++ post) := by
  refine ⟨?_, ?_, ?_, ?_, ?_, ?_, ?_, ?_, ?_,
    "Enter a number ", " for " ++ fieldName, rfl⟩
  · rintro q rfl hq
    simp [validatePositiveNumber, jsNonPos, not_le.2 hq]
  · rintro q rfl hq
    simp [validatePositiveNumber, jsNonPos, hq]
  · rintro (rfl | rfl | rfl) <;> simp [validatePositiveNumber]
  · rintro s q rfl hp hq
    simp [validatePositiveNumber, hp, jsNonPos, not_le.2 hq]
  · rintro s q rfl hp hq
    simp [validatePositiveNumber, hp, jsNonPos, hq]
  · rintro s rfl hp
    simp [validatePositiveNumber, hp]
  · rintro s rfl hp
    simp [validatePositiveNumber, hp, jsNonPos]
  · rintro s rfl hp
    simp [validatePositiveNumber, hp, jsNonPos]
  · rintro (rfl | rfl | rfl | rfl | ⟨b, rfl⟩) <;> simp [validatePositiveNumber]

/-- Witness for C8, at the code's own test inputs: `10.5`, `'25.75'`,
`'  42.5  '`, `0`, `NaN`, `Infinity`, `'abc'`, `null`. -/
theorem validatePositiveNumber_spec_witness :
    validatePositiveNumber (.num (.fin (mkRat 21 2))) "area" = .ok (.fin (mkRat 21 2))
      ∧ validatePositiveNumber (.str "25.75") "weight" = .ok (.fin (mkRat 103 4))
      ∧ validatePositiveNumber (.str "  42.5  ") "value" = .ok (.fin (mkRat 85 2))
      ∧ validatePositiveNumber (.num (.fin 0)) "area" =
        .error ("Enter a number greater than 0 for area")
      ∧ validatePositiveNumber (.num .nan) "count" = .error ("Enter a valid number for count")
      ∧ validatePositiveNumber (.num .inf) "value" = .error ("Enter a valid number for value")
      ∧ validatePositiveNumber (.str "abc") "area" = .error ("Enter a valid number for area")
      ∧ validatePositiveNumber .nullV "weight" = .error ("Enter a valid number for weight") :=
  ⟨(validatePositiveNumber_spec (.num (.fin (mkRat 21 2))) "area").1 (mkRat 21 2) rfl
      (by norm_num [Rat.mkRat_eq_div]),
    (validatePositiveNumber_spec (.str "25.75") "weight").2.2.2.1 "25.75" (mkRat 103 4) rfl
      (by decide) (by norm_num [Rat.mkRat_eq_div]),
    (validatePositiveNumber_spec (.str "  42.5  ") "value").2.2.2.1 "  42.5  " (mkRat 85 2) rfl
      (by decide) (by norm_num [Rat.mkRat_eq_div]),
    (validatePositiveNumber_spec (.num (.fin 0)) "area").2.1 0 rfl (by norm_num),
    (validatePositiveNumber_spec (.num .nan) "count").2.2.1 (Or.inl rfl),
    (validatePositiveNumber_spec (.num .inf) "value").2.2.1 (Or.inr (Or.inl rfl)),
    (validatePositiveNumber_spec (.str "abc") "area").2.2.2.2.2.1 "abc" rfl (by decide),
    (validatePositiveNumber_spec .nullV "weight").2.2.2.2.2.2.2.2.1 (Or.inl rfl)⟩



/-! ## `validateEmail` (`validation.ts` 81-118)

The e-mail regular expression of the source is pure ASCII; it is modelled
by an equivalent structural matcher: `local@domain` with exactly one `@`,
where the local part is dot-separated nonempty runs of the regex's local
character class, and the domain is two or more dot-separated labels, each
1-63 characters of alphanumerics/hyphens beginning and ending with an
alphanumeric. -/

/-- Decimal digit code point. -/
def isDigitN (t : Nat) : Bool := decide (48 ≤ t ∧ t ≤ 57)

/-- Uppercase ASCII letter code point. -/
def isUpperN (t : Nat) : Bool := decide (65 ≤ t ∧ t ≤ 90)

/-- Lowercase ASCII letter code point. -/
def isLowerN (t : Nat) : Bool := decide (97 ≤ t ∧ t ≤ 122)

/-- ASCII alphanumeric code point. -/
def isAlnumN (t : Nat) : Bool := isUpperN t || isLowerN t || isDigitN t

/-- The special characters the regex allows in the local part, as code
points: `! # $ % & ' * + - / = ? ^ _ {backtick} {lbrace} {pipe} {rbrace} ~`. -/
def localSpecials : List Nat :=
  [33, 35, 36, 37, 38, 39, 42, 43, 45, 47, 61, 63, 94, 95, 96, 123, 124, 125, 126]

/-- Local-part character class of the regex. -/
def isLocalChar (c : Char) : Bool := isAlnumN c.toNat || localSpecials.contains c.toNat

/-- Alphanumeric character. -/
def isAlnumC (c : Char) : Bool := isAlnumN c.toNat

/-- Domain-label character class (alphanumeric or hyphen). -/
def isLabelChar (c : Char) : Bool := isAlnumN c.toNat || c.toNat == 45

/-- Split a character list at every dot (`.`), keeping empty runs. -/
def splitOnDot : List Char → List (List Char)
  | [] => [[]]
  | c :: rest =>
    match splitOnDot rest with
    | [] => [[]]
    | g :: gs => if c.toNat == 46 then [] :: g :: gs else (c :: g) :: gs

/-- The regex's local part: dot-separated nonempty runs of local characters
(no leading/trailing/consecutive dots). -/
def localOk (l : List Char) : Bool :=
  (splitOnDot l).all (fun p => !p.isEmpty && p.all isLocalChar)

/-- One domain label: 1-63 characters, alphanumeric at both ends,
alphanumeric/hyphen inside. -/
def labelOk (p : List Char) : Bool :=
  (match p.head? with | some c => isAlnumC c | none => false) &&
    (match p.getLast? with | some c => isAlnumC c | none => false) &&
    p.all isLabelChar && decide (p.length ≤ 63)

/-- The regex's domain: at least two dot-separated labels. -/
def domainOk (l : List Char) : Bool :=
  decide (2 ≤ (splitOnDot l).length) && (splitOnDot l).all labelOk

/-- The whole e-mail regex: `local @ domain`, anchored. -/
def emailShape (l : List Char) : Bool :=
  match l.dropWhile (fun c => c.toNat != 64) with
  | [] => false
  | _ :: domain => localOk (l.takeWhile (fun c => c.toNat != 64)) && domainOk domain

/-- ASCII lowercasing of one character (JS `toLowerCase` restricted to the
ASCII range, the only range reachable behind the regex test). -/
def toLowerChar (c : Char) : Char :=
  if 65 ≤ c.toNat && c.toNat ≤ 90 then Char.ofNat (c.toNat + 32) else c

/-- ASCII lowercasing of a character list. -/
def toLowerList (l : List Char) : List Char := l.map toLowerChar

/-- `validateEmail(email)` (`validation.ts` 81-118): non-strings are
invalid; the input is trimmed; empty means required; the regex must match;
more than 254 characters is too long; a local part longer than 64 is
invalid; on success the trimmed input is returned lowercased. -/
def validateEmail (email : JsVal) : Except String String :=
  match email with
  | .str s =>
    let trimmed := jsTrimList s.data
    if trimmed.isEmpty then .error "Email address is required"
    else if !(emailShape trimmed) then .error "Enter a valid email address"
    else if decide (254 < trimmed.length) then .error "Email address is too long"
    else if decide (64 < (trimmed.takeWhile (fun c => c.toNat != 64)).length) then
      .error "Email address is invalid"
    else .ok ⟨toLowerList trimmed⟩
  | _ => .error "Enter a valid email address"



/-! ### Character-level lemmas for `validateEmail` idempotence -/

theorem charToNat_ofNat_of_lt {n : Nat} (h : n < 55296) : (Char.ofNat n).toNat = n := by
  unfold Char.ofNat
  rw [dif_pos (Or.inl h)]
  simp [Char.ofNatAux, Char.toNat, UInt32.toNat, BitVec.toNat_ofNatLt]

theorem toLowerChar_toNat (c : Char) :
    (toLowerChar c).toNat =
      if 65 ≤ c.toNat && c.toNat ≤ 90 then c.toNat + 32 else c.toNat := by
  unfold toLowerChar
  by_cases h : (65 ≤ c.toNat && c.toNat ≤ 90) = true
  · rw [if_pos h, if_pos h]
    have h2 : c.toNat ≤ 90 := by
      simp only [Bool.and_eq_true, decide_eq_true_eq] at h
      exact h.2
    exact charToNat_ofNat_of_lt (by omega)
  · rw [if_neg h, if_neg h]

theorem toLowerChar_eq_self {c : Char} (h : ¬((65 ≤ c.toNat && c.toNat ≤ 90) = true)) :
    toLowerChar c = c := by
  unfold toLowerChar
  rw [if_neg h]

theorem toLowerChar_idem (c : Char) : toLowerChar (toLowerChar c) = toLowerChar c := by
  by_cases h : (65 ≤ c.toNat && c.toNat ≤ 90) = true
  · apply toLowerChar_eq_self
    rw [toLowerChar_toNat, if_pos h]
    simp only [Bool.and_eq_true, decide_eq_true_eq] at h ⊢
    omega
  · rw [toLowerChar_eq_self h]
    exact toLowerChar_eq_self h

theorem toLowerList_idem (l : List Char) : toLowerList (toLowerList l) = toLowerList l := by
  unfold toLowerList
  rw [List.map_map]
  exact List.map_congr_left (fun c _ => toLowerChar_idem c)

theorem toLowerChar_beq_low (c : Char) (m : Nat) (hm : m < 65) :
    ((toLowerChar c).toNat == m) = (c.toNat == m) := by
  rw [toLowerChar_toNat]
  by_cases h : (65 ≤ c.toNat && c.toNat ≤ 90) = true <;>
    simp only [Bool.and_eq_true, decide_eq_true_eq] at h <;> simp [h]
  omega

theorem toLowerChar_bne_low (c : Char) (m : Nat) (hm : m < 65) :
    ((toLowerChar c).toNat != m) = (c.toNat != m) := by
  simp only [bne, toLowerChar_beq_low c m hm]

theorem isJsWs_toLowerChar (c : Char) : isJsWs (toLowerChar c) = isJsWs c := by
  by_cases h : (65 ≤ c.toNat && c.toNat ≤ 90) = true
  · simp only [Bool.and_eq_true, decide_eq_true_eq] at h
    unfold isJsWs
    rw [toLowerChar_toNat, if_pos (by simp; omega : (65 ≤ c.toNat && c.toNat ≤ 90) = true),
      Bool.eq_iff_iff]
    generalize c.toNat = t at h ⊢
    simp
    omega
  · rw [toLowerChar_eq_self h]

theorem isLocalChar_toLower {c : Char} (h : isLocalChar c = true) :
    isLocalChar (toLowerChar c) = true := by
  by_cases hu : (65 ≤ c.toNat && c.toNat ≤ 90) = true
  · simp only [Bool.and_eq_true, decide_eq_true_eq] at hu
    unfold isLocalChar isAlnumN isUpperN isLowerN isDigitN localSpecials
    rw [toLowerChar_toNat, if_pos (by simp; omega : (65 ≤ c.toNat && c.toNat ≤ 90) = true)]
    generalize c.toNat = t at hu
    simp
    omega
  · rw [toLowerChar_eq_self hu]
    exact h

theorem isLabelChar_toLower {c : Char} (h : isLabelChar c = true) :
    isLabelChar (toLowerChar c) = true := by
  by_cases hu : (65 ≤ c.toNat && c.toNat ≤ 90) = true
  · simp only [Bool.and_eq_true, decide_eq_true_eq] at hu
    unfold isLabelChar isAlnumN isUpperN isLowerN isDigitN
    rw [toLowerChar_toNat, if_pos (by simp; omega : (65 ≤ c.toNat && c.toNat ≤ 90) = true)]
    generalize c.toNat = t at hu
    simp
    omega
  · rw [toLowerChar_eq_self hu]
    exact h

theorem isAlnumC_toLower {c : Char} (h : isAlnumC c = true) :
    isAlnumC (toLowerChar c) = true := by
  by_cases hu : (65 ≤ c.toNat && c.toNat ≤ 90) = true
  · simp only [Bool.and_eq_true, decide_eq_true_eq] at hu
    unfold isAlnumC isAlnumN isUpperN isLowerN isDigitN
    rw [toLowerChar_toNat, if_pos (by simp; omega : (65 ≤ c.toNat && c.toNat ≤ 90) = true)]
    generalize c.toNat = t at hu
    simp
    omega
  · rw [toLowerChar_eq_self hu]
    exact h

theorem isLocalChar_not_ws {c : Char} (h : isLocalChar c = true) : isJsWs c = false := by
  unfold isLocalChar isAlnumN isUpperN isLowerN isDigitN localSpecials at h
  unfold isJsWs
  simp at h ⊢
  omega

theorem isLabelChar_not_ws {c : Char} (h : isLabelChar c = true) : isJsWs c = false := by
  unfold isLabelChar isAlnumN isUpperN isLowerN isDigitN at h
  unfold isJsWs
  simp at h ⊢
  omega

theorem toNat_not_ws {c : Char} (h : c.toNat = 46 ∨ c.toNat = 64) : isJsWs c = false := by
  unfold isJsWs
  rcases h with h | h <;> simp [h]



/-! ### Structural lemmas for `validateEmail` idempotence -/

theorem splitOnDot_ne_nil (l : List Char) : splitOnDot l ≠ [] := by
  induction l with
  | nil => simp [splitOnDot]
  | cons c rest ih =>
    unfold splitOnDot
    rcases h : splitOnDot rest with _ | ⟨g, gs⟩
    · exact absurd h ih
    · by_cases hc : (c.toNat == 46) = true <;> simp [hc]

theorem splitOnDot_toLower (l : List Char) :
    splitOnDot (toLowerList l) = (splitOnDot l).map toLowerList := by
  induction l with
  | nil => rfl
  | cons c rest ih =>
    show splitOnDot (toLowerChar c :: toLowerList rest) = _
    unfold splitOnDot
    rcases h : splitOnDot rest with _ | ⟨g, gs⟩
    · exact absurd h (splitOnDot_ne_nil rest)
    · rw [h] at ih
      rcases h2 : splitOnDot (toLowerList rest) with _ | ⟨g2, gs2⟩
      · exact absurd h2 (splitOnDot_ne_nil _)
      · rw [h2] at ih
        rw [toLowerChar_beq_low c 46 (by omega)]
        simp only [List.map_cons] at ih
        injection ih with ih1 ih2
        by_cases hc : (c.toNat == 46) = true <;>
          simp [hc, ih1, ih2, toLowerList]

theorem splitOnDot_chars {l : List Char} {c : Char} (h : c ∈ l) :
    (∃ p, p ∈ splitOnDot l ∧ c ∈ p) ∨ c.toNat = 46 := by
  induction l with
  | nil => cases h
  | cons a rest ih =>
    rcases hr : splitOnDot rest with _ | ⟨g, gs⟩
    · exact absurd hr (splitOnDot_ne_nil rest)
    rcases List.mem_cons.1 h with rfl | hmem
    · by_cases ha : (c.toNat == 46) = true
      · exact Or.inr (by simpa using ha)
      · refine Or.inl ⟨c :: g, ?_, List.mem_cons_self _ _⟩
        unfold splitOnDot
        rw [hr]
        simp [ha]
    · rcases ih hmem with ⟨p, hp, hcp⟩ | hdot
      · rw [hr] at hp
        by_cases ha : (a.toNat == 46) = true
        · refine Or.inl ⟨p, ?_, hcp⟩
          unfold splitOnDot
          rw [hr]
          simp only [ha, if_pos]
          exact List.mem_cons_of_mem _ hp
        · rcases List.mem_cons.1 hp with rfl | hp2
          · refine Or.inl ⟨a :: p, ?_, List.mem_cons_of_mem _ hcp⟩
            unfold splitOnDot
            rw [hr]
            simp [ha]
          · refine Or.inl ⟨p, ?_, hcp⟩
            unfold splitOnDot
            rw [hr]
            simp only [ha, if_false, ite_false, Bool.false_eq_true]
            simp [ha]
            exact Or.inr hp2
      · exact Or.inr hdot

theorem localOk_toLower {l : List Char} (h : localOk l = true) :
    localOk (toLowerList l) = true := by
  unfold localOk at h ⊢
  rw [splitOnDot_toLower]
  rw [List.all_eq_true] at h ⊢
  intro p hp
  rcases List.mem_map.1 hp with ⟨p0, hp0, rfl⟩
  have h0 := h p0 hp0
  simp only [Bool.and_eq_true, List.all_eq_true] at h0 ⊢
  refine ⟨?_, ?_⟩
  · rcases p0 with _ | _
    · simp at h0
    · simp [toLowerList]
  · intro c hc
    rcases List.mem_map.1 hc with ⟨c0, hc0, rfl⟩
    exact isLocalChar_toLower (h0.2 c0 hc0)

theorem labelOk_toLower {p : List Char} (h : labelOk p = true) :
    labelOk (toLowerList p) = true := by
  unfold labelOk at h ⊢
  simp only [Bool.and_eq_true, decide_eq_true_eq, List.all_eq_true] at h ⊢
  obtain ⟨⟨⟨hh, hl⟩, hall⟩, hlen⟩ := h
  refine ⟨⟨⟨?_, ?_⟩, ?_⟩, ?_⟩
  · rcases hp : p.head? with _ | c
    · rw [hp] at hh
      simp at hh
    · rw [hp] at hh
      have : (toLowerList p).head? = some (toLowerChar c) := by
        simp [toLowerList, hp]
      rw [this]
      exact isAlnumC_toLower hh
  · rcases hp : p.getLast? with _ | c
    · rw [hp] at hl
      simp at hl
    · rw [hp] at hl
      have : (toLowerList p).getLast? = some (toLowerChar c) := by
        simp [toLowerList, hp]
      rw [this]
      exact isAlnumC_toLower hl
  · intro c hc
    rcases List.mem_map.1 hc with ⟨c0, hc0, rfl⟩
    exact isLabelChar_toLower (hall c0 hc0)
  · simpa [toLowerList] using hlen

theorem domainOk_toLower {l : List Char} (h : domainOk l = true) :
    domainOk (toLowerList l) = true := by
  unfold domainOk at h ⊢
  rw [splitOnDot_toLower]
  simp only [Bool.and_eq_true, decide_eq_true_eq, List.all_eq_true, List.length_map] at h ⊢
  refine ⟨h.1, ?_⟩
  intro p hp
  rcases List.mem_map.1 hp with ⟨p0, hp0, rfl⟩
  exact labelOk_toLower (h.2 p0 hp0)

theorem takeWhile64_toLower (l : List Char) :
    (toLowerList l).takeWhile (fun c => c.toNat != 64) =
      toLowerList (l.takeWhile (fun c => c.toNat != 64)) := by
  unfold toLowerList
  rw [List.takeWhile_map]
  rw [show ((fun c : Char => c.toNat != 64) ∘ toLowerChar) = (fun c : Char => c.toNat != 64)
    from funext fun c => toLowerChar_bne_low c 64 (by omega)]

theorem dropWhile64_toLower (l : List Char) :
    (toLowerList l).dropWhile (fun c => c.toNat != 64) =
      toLowerList (l.dropWhile (fun c => c.toNat != 64)) := by
  unfold toLowerList
  rw [List.dropWhile_map]
  rw [show ((fun c : Char => c.toNat != 64) ∘ toLowerChar) = (fun c : Char => c.toNat != 64)
    from funext fun c => toLowerChar_bne_low c 64 (by omega)]

theorem emailShape_toLower {l : List Char} (h : emailShape l = true) :
    emailShape (toLowerList l) = true := by
  unfold emailShape at h ⊢
  rcases hd : l.dropWhile (fun c => c.toNat != 64) with _ | ⟨at0, domain⟩
  · rw [hd] at h
    simp at h
  rw [hd] at h
  rw [dropWhile64_toLower, hd]
  show (match (toLowerChar at0 :: toLowerList domain : List Char) with
    | [] => false
    | _ :: domain2 => localOk ((toLowerList l).takeWhile (fun c => c.toNat != 64)) &&
        domainOk domain2) = true
  simp only []
  rw [takeWhile64_toLower]
  simp only [Bool.and_eq_true] at h ⊢
  exact ⟨localOk_toLower h.1, domainOk_toLower h.2⟩

theorem emailShape_chars {l : List Char} {c : Char} (h : emailShape l = true) (hc : c ∈ l) :
    isLocalChar c = true ∨ isLabelChar c = true ∨ c.toNat = 46 ∨ c.toNat = 64 := by
  unfold emailShape at h
  rcases hd : l.dropWhile (fun c => c.toNat != 64) with _ | ⟨at0, domain⟩
  · rw [hd] at h
    simp at h
  rw [hd] at h
  simp only [Bool.and_eq_true] at h
  obtain ⟨hlocal, hdomain⟩ := h
  have hsplit := List.takeWhile_append_dropWhile (p := fun c => c.toNat != 64) (l := l)
  rw [← hsplit] at hc
  rcases List.mem_append.1 hc with hmem | hmem
  · -- in the local part
    rcases splitOnDot_chars hmem with ⟨p, hp, hcp⟩ | hdot
    · unfold localOk at hlocal
      rw [List.all_eq_true] at hlocal
      have := hlocal p hp
      simp only [Bool.and_eq_true, List.all_eq_true] at this
      exact Or.inl (this.2 c hcp)
    · exact Or.inr (Or.inr (Or.inl hdot))
  · -- the '@' or the domain
    rw [hd] at hmem
    rcases List.mem_cons.1 hmem with rfl | hmem2
    · -- the '@' itself: it is the first character failing the takeWhile predicate
      have hh := List.head?_dropWhile_not (fun c : Char => c.toNat != 64) l
      rw [hd] at hh
      simp at hh
      exact Or.inr (Or.inr (Or.inr hh))
    · rcases splitOnDot_chars hmem2 with ⟨p, hp, hcp⟩ | hdot
      · unfold domainOk at hdomain
        simp only [Bool.and_eq_true, List.all_eq_true] at hdomain
        have := hdomain.2 p hp
        unfold labelOk at this
        simp only [Bool.and_eq_true, List.all_eq_true] at this
        exact Or.inr (Or.inl (this.1.2 c hcp))
      · exact Or.inr (Or.inr (Or.inl hdot))

theorem emailShape_no_ws {l : List Char} (h : emailShape l = true) :
    ∀ c ∈ l, isJsWs c = false := by
  intro c hc
  rcases emailShape_chars h hc with h1 | h1 | h1 | h1
  · exact isLocalChar_not_ws h1
  · exact isLabelChar_not_ws h1
  · exact toNat_not_ws (Or.inl h1)
  · exact toNat_not_ws (Or.inr h1)

theorem dropWhile_ws_eq_self {l : List Char} (h : ∀ c ∈ l, isJsWs c = false) :
    l.dropWhile isJsWs = l := by
  cases l with
  | nil => rfl
  | cons c rest => simp [List.dropWhile_cons, h c (List.mem_cons_self c rest)]

theorem jsTrimList_eq_self {l : List Char} (h : ∀ c ∈ l, isJsWs c = false) :
    jsTrimList l = l := by
  unfold jsTrimList
  rw [dropWhile_ws_eq_self h,
    dropWhile_ws_eq_self (fun c hc => h c (List.mem_reverse.1 hc)), List.reverse_reverse]



/-- C9: `validateEmail` is idempotent on its own output: whenever it accepts
`x` and returns `y`, running it again on `y` succeeds and returns `y`
unchanged (trimming and lowercasing are fully normalised on the first
pass). -/
theorem validateEmail_idempotent :
    ∀ (x : JsVal) (y : String), validateEmail x = .ok y →
      validateEmail (.str y) = .ok y := by
  intro x y h
  cases x with
  | num n => simp [validateEmail] at h
  | nullV => simp [validateEmail] at h
  | undef => simp [validateEmail] at h
  | boolV b => simp [validateEmail] at h
  | objV => simp [validateEmail] at h
  | arrV => simp [validateEmail] at h
  | str s =>
    unfold validateEmail at h
    by_cases h1 : (jsTrimList s.data).isEmpty
    · simp [h1] at h
    by_cases h2 : emailShape (jsTrimList s.data)
    case neg => simp [h1, h2] at h
    by_cases h3 : (254 < (jsTrimList s.data).length)
    · simp [h1, h2, h3] at h
    by_cases h4 : (64 < ((jsTrimList s.data).takeWhile (fun c => c.toNat != 64)).length)
    · simp [h1, h2, h3, h4] at h
    simp [h1, h2, h3, h4] at h
    subst h
    generalize ht : jsTrimList s.data = t at h1 h2 h3 h4
    have hws2 : ∀ c ∈ toLowerList t, isJsWs c = false := by
      intro c hc
      rcases List.mem_map.1 hc with ⟨d, hd, rfl⟩
      rw [isJsWs_toLowerChar]
      exact emailShape_no_ws h2 d hd
    have htrim : jsTrimList (toLowerList t) = toLowerList t := jsTrimList_eq_self hws2
    have ht_ne : t ≠ [] := fun hnil => h1 (by simp [hnil])
    have hne2 : toLowerList t ≠ [] := by
      intro hnil
      exact ht_ne (by simpa [toLowerList] using hnil)
    have hie : (toLowerList t).isEmpty = false := by
      cases hl : toLowerList t with
      | nil => exact absurd hl hne2
      | cons a as => rfl
    have hlen : (toLowerList t).length = t.length := List.length_map _ _
    have hloc : ((toLowerList t).takeWhile (fun c => c.toNat != 64)).length =
        (t.takeWhile (fun c => c.toNat != 64)).length := by
      rw [takeWhile64_toLower]
      exact List.length_map _ _
    unfold validateEmail
    simp only [htrim, hie, emailShape_toLower h2, hlen, hloc, Bool.not_true,
      Bool.false_eq_true, if_false, decide_eq_true_eq]
    rw [if_neg h3, if_neg h4]
    rw [toLowerList_idem]


/-- Witness for C9: the accepted input `"  John.Doe@Example.COM  "`
normalises to `"john.doe@example.com"`, on which a second pass is the
identity. -/
theorem validateEmail_idempotent_witness :
    validateEmail (.str "john.doe@example.com") = .ok "john.doe@example.com" :=
  validateEmail_idempotent (.str "  John.Doe@Example.COM  ") "john.doe@example.com" (by decide)



/-! ## `sanitizeInput` (`validation.ts` 154-202)

`null`/`undefined` become `""`; any other value is converted with
`String(...)`, run through the tag/scheme/handler-stripping replacements,
trimmed, and finally HTML-entity encoded (`&`, `<`, `>`, `"`, `'`).  The
stripping passes model the source's regular expressions: a block regex
`<tag\b ... </tag>` (case-insensitive) removes from each opening tag
through its nearest closing tag, `<tag[^>]*>` removes through the next
`>`, the URL schemes are plain case-insensitive substring removals, and
the two event-handler patterns remove `\s* on\w+ \s* = \s*` followed by a
quoted or unquoted value. -/

/-- JS `String(...)` conversion for the values of the model (array contents
are not modelled, so `String(array)` is represented by the empty string its
element-free join would give). -/
def jsNumToString : JsNum → String
  | .fin q => qToString q
  | .nan => "NaN"
  | .inf => "Infinity"
  | .ninf => "-Infinity"

/-- JS `String(...)` on a value. -/
def jsToString : JsVal → String
  | .str s => s
  | .num n => jsNumToString n
  | .nullV => "null"
  | .undef => "undefined"
  | .boolV b => if b then "true" else "false"
  | .objV => "[object Object]"
  | .arrV => ""

/-- Case-insensitive (ASCII) character comparison. -/
def toLowerEq (a b : Char) : Bool := toLowerChar a == toLowerChar b

/-- Does `p` match the front of the text, case-insensitively? -/
def matchesCI : List Char → List Char → Bool
  | [], _ => true
  | _ :: _, [] => false
  | p :: ps, c :: cs => toLowerEq p c && matchesCI ps cs

/-- Regex word character (`\w`). -/
def isWordChar (c : Char) : Bool := isAlnumN c.toNat || c.toNat == 95

/-- Word boundary (`\b`) after the first `n` characters: the text must not
continue with a word character there. -/
def boundaryAfter (n : Nat) (l : List Char) : Bool :=
  match (l.drop n).head? with
  | none => true
  | some c => !isWordChar c

/-- Drop everything up to and including the first case-insensitive
occurrence of `close`; `none` when there is none. -/
def dropThrough (close : List Char) : List Char → Option (List Char)
  | [] => none
  | c :: rest =>
    if matchesCI close (c :: rest) then some ((c :: rest).drop close.length)
    else dropThrough close rest

/-- One `.replace(/<tag\b...<\/tag>/gi, '')` pass: each opening tag (with a
word boundary) is removed through its nearest closing tag; an unclosed
opening tag is left alone. -/
def removeTagBlocks (openT close : List Char) : Nat → List Char → List Char
  | 0, l => l
  | _ + 1, [] => []
  | fuel + 1, c :: rest =>
    if matchesCI openT (c :: rest) && boundaryAfter openT.length (c :: rest) then
      match dropThrough close ((c :: rest).drop openT.length) with
      | some rem => removeTagBlocks openT close fuel rem
      | none => c :: removeTagBlocks openT close fuel rest
    else c :: removeTagBlocks openT close fuel rest

/-- Drop everything up to and including the first `>`. -/
def dropToGt : List Char → Option (List Char)
  | [] => none
  | c :: rest => if c.toNat == 62 then some rest else dropToGt rest

/-- One `.replace(/<tag[^>]*>/gi, '')` pass. -/
def removeOpenTags (openT : List Char) : Nat → List Char → List Char
  | 0, l => l
  | _ + 1, [] => []
  | fuel + 1, c :: rest =>
    if matchesCI openT (c :: rest) then
      match dropToGt ((c :: rest).drop openT.length) with
      | some rem => removeOpenTags openT fuel rem
      | none => c :: removeOpenTags openT fuel rest
    else c :: removeOpenTags openT fuel rest

/-- One `.replace(/pat/gi, '')` pass for a plain pattern. -/
def removeSubCI (pat : List Char) : Nat → List Char → List Char
  | 0, l => l
  | _ + 1, [] => []
  | fuel + 1, c :: rest =>
    if matchesCI pat (c :: rest) then removeSubCI pat fuel ((c :: rest).drop pat.length)
    else c :: removeSubCI pat fuel rest

/-- Try to match one inline event-handler attribute
(`\s*on\w+\s*=\s*["'][^"']*["']` or `\s*on\w+\s*=\s*[^\s>]*`) at the front,
returning the remainder after the match. -/
def matchEventHandler (l : List Char) : Option (List Char) :=
  let l1 := l.dropWhile isJsWs
  match l1 with
  | o :: n :: r2 =>
    if (o.toNat == 111 || o.toNat == 79) && (n.toNat == 110 || n.toNat == 78) then
      let r3 := r2.dropWhile isWordChar
      if r3.length == r2.length then none
      else
        let r4 := r3.dropWhile isJsWs
        match r4 with
        | e :: r5 =>
          if e.toNat == 61 then
            let r6 := r5.dropWhile isJsWs
            match r6 with
            | q :: r7 =>
              if q.toNat == 34 || q.toNat == 39 then
                match r7.dropWhile (fun c => !(c.toNat == 34 || c.toNat == 39)) with
                | _ :: r9 => some r9
                | [] => some (r6.dropWhile (fun c => !isJsWs c && c.toNat != 62))
              else some (r6.dropWhile (fun c => !isJsWs c && c.toNat != 62))
            | [] => some []
          else none
        | [] => none
    else none
  | _ => none

/-- The two event-handler `.replace(..., '')` passes. -/
def removeEventHandlers : Nat → List Char → List Char
  | 0, l => l
  | _ + 1, [] => []
  | fuel + 1, c :: rest =>
    match matchEventHandler (c :: rest) with
    | some rem => removeEventHandlers fuel rem
    | none => c :: removeEventHandlers fuel rest

/-- Replace each character by a replacement string. -/
def expandChar (f : Char → List Char) : List Char → List Char
  | [] => []
  | c :: rest => f c ++ expandChar f rest

/-- `.replace(/&/g, '&amp;')`. -/
def encAmp (l : List Char) : List Char :=
  expandChar (fun c => if c.toNat == 38 then ("&amp;").data else [c]) l

/-- `.replace(/</g, '&lt;')`. -/
def encLt (l : List Char) : List Char :=
  expandChar (fun c => if c.toNat == 60 then ("&lt;").data else [c]) l

/-- `.replace(/>/g, '&gt;')`. -/
def encGt (l : List Char) : List Char :=
  expandChar (fun c => if c.toNat == 62 then ("&gt;").data else [c]) l

/-- `.replace(/"/g, '&quot;')`. -/
def encQuot (l : List Char) : List Char :=
  expandChar (fun c => if c.toNat == 34 then ("&quot;").data else [c]) l

/-- `.replace(/'/g, '&#x27;')`. -/
def encApos (l : List Char) : List Char :=
  expandChar (fun c => if c.toNat == 39 then ("&#x27;").data else [c]) l

/-- The final HTML-entity encoding chain of `sanitizeInput`. -/
def htmlEncode (l : List Char) : List Char := encApos (encQuot (encGt (encLt (encAmp l))))

/-- The tag-, scheme- and handler-stripping replacement chain of
`sanitizeInput`, before the trim and the entity encoding. -/
def stripDangerous (s : String) : List Char :=
  let s0 := s.data
  let s1 := removeTagBlocks (("<script").data) (("</script>").data) (s0.length + 1) s0
  let s2 := removeTagBlocks (("<iframe").data) (("</iframe>").data) (s1.length + 1) s1
  let s3 := removeTagBlocks (("<object").data) (("</object>").data) (s2.length + 1) s2
  let s4 := removeOpenTags (("<embed").data) (s3.length + 1) s3
  let s5 := removeOpenTags (("<link").data) (s4.length + 1) s4
  let s6 := removeOpenTags (("<meta").data) (s5.length + 1) s5
  let s7 := removeSubCI (("javascript:").data) (s6.length + 1) s6
  let s8 := removeSubCI (("data:").data) (s7.length + 1) s7
  removeEventHandlers (s8.length + 1) s8

/-- `sanitizeInput(input)` (`validation.ts` 154-202): `''` for `null` and
`undefined`, else convert to a string, strip, trim, entity-encode. -/
def sanitizeInput (input : JsVal) : String :=
  if input = .nullV ∨ input = .undef then ""
  else ⟨htmlEncode (jsTrimList (stripDangerous (jsToString input)))⟩



theorem mem_expandChar {f : Char → List Char} {l : List Char} {c : Char}
    (h : c ∈ expandChar f l) : ∃ d ∈ l, c ∈ f d := by
  induction l with
  | nil => cases h
  | cons d rest ih =>
    rcases List.mem_append.1 h with h1 | h1
    · exact ⟨d, List.mem_cons_self d rest, h1⟩
    · obtain ⟨d2, hd2, hc2⟩ := ih h1
      exact ⟨d2, List.mem_cons_of_mem _ hd2, hc2⟩

theorem expandChar_prop {f : Char → List Char} {P : Char → Prop} {l : List Char}
    (hl : ∀ d ∈ l, ∀ c ∈ f d, P c) : ∀ c ∈ expandChar f l, P c := by
  intro c hc
  obtain ⟨d, hd, hcf⟩ := mem_expandChar hc
  exact hl d hd c hcf

theorem encLt_no60 (l : List Char) : ∀ c ∈ encLt l, c.toNat ≠ 60 := by
  apply expandChar_prop
  intro d _ c hc
  by_cases hd : (d.toNat == 60) = true <;> simp [hd] at hc
  · rcases hc with rfl | rfl | rfl | rfl <;> decide
  · subst hc
    simpa using hd

theorem encGt_no_angles (l : List Char) (h : ∀ d ∈ l, d.toNat ≠ 60) :
    ∀ c ∈ encGt l, c.toNat ≠ 60 ∧ c.toNat ≠ 62 := by
  apply expandChar_prop
  intro d hd c hc
  by_cases hb : (d.toNat == 62) = true <;> simp [hb] at hc
  · rcases hc with rfl | rfl | rfl | rfl <;> exact ⟨by decide, by decide⟩
  · subst hc
    exact ⟨h _ hd, by simpa using hb⟩

theorem encQuot_no_angles (l : List Char) (h : ∀ d ∈ l, d.toNat ≠ 60 ∧ d.toNat ≠ 62) :
    ∀ c ∈ encQuot l, c.toNat ≠ 60 ∧ c.toNat ≠ 62 := by
  apply expandChar_prop
  intro d hd c hc
  by_cases hb : (d.toNat == 34) = true <;> simp [hb] at hc
  · rcases hc with rfl | rfl | rfl | rfl | rfl | rfl <;> exact ⟨by decide, by decide⟩
  · subst hc
    exact h _ hd

theorem encApos_no_angles (l : List Char) (h : ∀ d ∈ l, d.toNat ≠ 60 ∧ d.toNat ≠ 62) :
    ∀ c ∈ encApos l, c.toNat ≠ 60 ∧ c.toNat ≠ 62 := by
  apply expandChar_prop
  intro d hd c hc
  by_cases hb : (d.toNat == 39) = true <;> simp [hb] at hc
  · rcases hc with rfl | rfl | rfl | rfl | rfl | rfl <;> exact ⟨by decide, by decide⟩
  · subst hc
    exact h _ hd

theorem htmlEncode_no_angles (l : List Char) :
    ∀ c ∈ htmlEncode l, c.toNat ≠ 60 ∧ c.toNat ≠ 62 := by
  unfold htmlEncode
  exact encApos_no_angles _ (encQuot_no_angles _ (encGt_no_angles _ (encLt_no60 _)))

set_option maxHeartbeats 1600000 in
/-- C10 (implicit): `sanitizeInput` never throws (it is a total function in
this model), returns `""` on `null` and `undefined`, and its output never
contains a literal `<` or `>` character: after the tag-stripping passes the
final encoding chain replaces every `<` with `&lt;` and every `>` with
`&gt;`, and no later replacement reintroduces an angle bracket. -/
theorem sanitizeInput_no_angle_brackets (input : JsVal) :
    (∀ c ∈ (sanitizeInput input).data, c.toNat ≠ 60 ∧ c.toNat ≠ 62)
      ∧ ((input = .nullV ∨ input = .undef) → sanitizeInput input = "") := by
  constructor
  · by_cases h : input = .nullV ∨ input = .undef
    · unfold sanitizeInput
      rw [if_pos h]
      intro c hc
      cases hc
    · unfold sanitizeInput
      rw [if_neg h]
      exact htmlEncode_no_angles _
  · intro h
    unfold sanitizeInput
    rw [if_pos h]

set_option maxHeartbeats 1600000 in
/-- Witness for C10 at a concrete script-bearing input. -/
theorem sanitizeInput_no_angle_brackets_witness :
    (∀ c ∈ (sanitizeInput (.str "<script>alert(1)</script><b x=\"1\">hi</b>")).data,
        c.toNat ≠ 60 ∧ c.toNat ≠ 62)
      ∧ sanitizeInput .nullV = "" :=
  ⟨(sanitizeInput_no_angle_brackets (.str "<script>alert(1)</script><b x=\"1\">hi</b>")).1,
    (sanitizeInput_no_angle_brackets .nullV).2 (Or.inl rfl)⟩




/-! ## `handlers/results.ts` - `generateInputSummary` and `safeJsonStringify`

Stored calculation inputs come back from the database as arbitrary JSON
objects.  They are modelled as an explicit heap - a list of objects, each a
list of `(key, value)` fields - with values that are numbers, strings, or
references to other heap objects.  The explicit references make shared and
self-referential objects (which `safeJsonStringify` must survive)
representable. -/

/-- A JSON/JS value in a stored-input object: a number, a string, or a
reference to another heap object. -/
inductive JRef where
  | num (q : ℚ)
  | str (s : String)
  | ref (i : Nat)
deriving DecidableEq, Repr

/-- A heap of JS objects: object `i` is the field list `h.getD i []`. -/
abbrev JHeap := List (List (String × JRef))

/-- An opening brace character. -/
def lbrace : Char := Char.ofNat 123

/-- A closing brace character. -/
def rbrace : Char := Char.ofNat 125

/-- A colon character. -/
def colonChar : Char := Char.ofNat 58

/-- Hexadecimal digit character. -/
def hexDigitChar (n : Nat) : Char :=
  if n < 10 then Char.ofNat (48 + n) else Char.ofNat (87 + n)

/-- `JSON.stringify` escaping of one string character. -/
def jsonQuoteChar (c : Char) : List Char :=
  if c.toNat == 34 then ("\\\"").data
  else if c.toNat == 92 then ("\\\\").data
  else if c.toNat == 10 then ("\\n").data
  else if c.toNat == 13 then ("\\r").data
  else if c.toNat == 9 then ("\\t").data
  else if c.toNat == 8 then ("\\b").data
  else if c.toNat == 12 then ("\\f").data
  else if c.toNat < 32 then
    ("\\u00").data ++ [hexDigitChar (c.toNat / 16), hexDigitChar (c.toNat % 16)]
  else [c]

/-- `JSON.stringify` rendering of a string value. -/
def jsonQuote (s : String) : List Char :=
  '"' :: (expandChar jsonQuoteChar s.data ++ ['"'])

/-- Interpose commas between the rendered fields of an object. -/
def joinComma : List (List Char) → List Char
  | [] => []
  | [x] => x
  | x :: y :: xs => x ++ (',' :: joinComma (y :: xs))

/-- Why a `JSON.stringify` run failed: a circular structure, or (model
artefact) fuel exhaustion - the top-level fuel below is proved sufficient. -/
inductive JsonErr where
  | cyclic
  | fuel
deriving DecidableEq, Repr

mutual

/-- Plain `JSON.stringify(value)`: serialise, failing on a circular
structure (`path` holds the objects on the current serialisation stack). -/
def stringifyPlain (h : JHeap) (fuel : Nat) (path : List Nat) (r : JRef) :
    Except JsonErr (List Char) :=
  match fuel, r with
  | 0, _ => .error .fuel
  | _ + 1, .num q => .ok (qToString q).data
  | _ + 1, .str s => .ok (jsonQuote s)
  | fuel + 1, .ref i =>
    if i ∈ path then .error .cyclic
    else
      match stringifyPlainFields h fuel (i :: path) (h.getD i []) with
      | .error e => .error e
      | .ok pieces => .ok (lbrace :: (joinComma pieces ++ [rbrace]))

/-- Serialise the fields of one object, left to right. -/
def stringifyPlainFields (h : JHeap) (fuel : Nat) (path : List Nat)
    (fields : List (String × JRef)) : Except JsonErr (List (List Char)) :=
  match fuel, fields with
  | 0, _ => .error .fuel
  | _ + 1, [] => .ok []
  | fuel + 1, (k, v) :: rest =>
    match stringifyPlain h fuel path v with
    | .error e => .error e
    | .ok sv =>
      match stringifyPlainFields h fuel path rest with
      | .error e => .error e
      | .ok svs => .ok ((jsonQuote k ++ (colonChar :: sv)) :: svs)

end

mutual

/-- `JSON.stringify(value, replacer)` with the `WeakSet` replacer of
`safeJsonStringify`: every object already seen anywhere in the traversal is
replaced by the string `'[Circular]'`; `seen` is threaded through the whole
run and never shrinks. -/
def stringifyWithSeen (h : JHeap) (fuel : Nat) (seen : List Nat) (r : JRef) :
    Except JsonErr (List Char × List Nat) :=
  match fuel, r with
  | 0, _ => .error .fuel
  | _ + 1, .num q => .ok ((qToString q).data, seen)
  | _ + 1, .str s => .ok (jsonQuote s, seen)
  | fuel + 1, .ref i =>
    if i ∈ seen then .ok (jsonQuote "[Circular]", seen)
    else
      match stringifyWithSeenFields h fuel (i :: seen) (h.getD i []) with
      | .error e => .error e
      | .ok (pieces, seen2) => .ok (lbrace :: (joinComma pieces ++ [rbrace]), seen2)

/-- Replacer-run serialisation of one object's fields, threading `seen`. -/
def stringifyWithSeenFields (h : JHeap) (fuel : Nat) (seen : List Nat)
    (fields : List (String × JRef)) : Except JsonErr (List (List Char) × List Nat) :=
  match fuel, fields with
  | 0, _ => .error .fuel
  | _ + 1, [] => .ok ([], seen)
  | fuel + 1, (k, v) :: rest =>
    match stringifyWithSeen h fuel seen v with
    | .error e => .error e
    | .ok (sv, seen1) =>
      match stringifyWithSeenFields h fuel seen1 rest with
      | .error e => .error e
      | .ok (svs, seen2) => .ok ((jsonQuote k ++ (colonChar :: sv)) :: svs, seen2)

end

/-- The longest field list of any heap object. -/
def maxFieldLen (h : JHeap) : Nat := (h.map List.length).foldr max 0

/-- Enough fuel for any non-circular serialisation of `h` (proved below). -/
def jsonFuel (h : JHeap) : Nat := (maxFieldLen h + 2) * h.length + 2

/-- `JSON.stringify(inputJson)`. -/
def jsonStringifyPlain (h : JHeap) (root : Nat) : Except JsonErr (List Char) :=
  stringifyPlain h (jsonFuel h) [] (.ref root)

/-- `JSON.stringify(inputJson, circularReplacer)`. -/
def jsonStringifyReplacer (h : JHeap) (root : Nat) : Except JsonErr (List Char) :=
  (stringifyWithSeen h (jsonFuel h) [] (.ref root)).map (·.1)

/-- `safeJsonStringify` (`results.ts` 187-207): plain `JSON.stringify`,
falling back to the `[Circular]`-replacer run, falling back to the literal
`'[Complex Object]'`. -/
def safeJsonStringify (h : JHeap) (root : Nat) : String :=
  match jsonStringifyPlain h root with
  | .ok out => ⟨out⟩
  | .error _ =>
    match jsonStringifyReplacer h root with
    | .ok out => ⟨out⟩
    | .error _ => "[Complex Object]"

end TaniHitung
namespace TaniHitung

/-- Look one field up in the stored input object (`inputJson['key']`). -/
def fieldOf (h : JHeap) (root : Nat) (key : String) : Option JRef :=
  (h.getD root []).lookup key

/-- JS template interpolation of a field value: `undefined` for a missing
field, the number/string itself otherwise, `[object Object]` for nested
objects. -/
def interpField (o : Option JRef) : String :=
  match o with
  | none => "undefined"
  | some (.num q) => qToString q
  | some (.str s) => s
  | some (.ref _) => "[object Object]"

/-- JS truthiness of a field value (`undefined`, `0` and `''` are falsy). -/
def truthyRef : Option JRef → Bool
  | none => false
  | some (.num q) => decide (q ≠ 0)
  | some (.str s) => !s.isEmpty
  | some (.ref _) => true

/-- The signed exponent suffix together with the unconsumed remainder. -/
def parseExpRem (l : List Char) : Int × List Char :=
  match l with
  | [] => (0, [])
  | c :: rest =>
    if c.toNat == 101 || c.toNat == 69 then
      let p : Bool × List Char :=
        match rest with
        | [] => (false, [])
        | d :: r3 =>
          if d.toNat == 43 then (false, r3)
          else if d.toNat == 45 then (true, r3) else (false, rest)
      let q := takeDigits p.2
      if q.1.isEmpty then (0, l)
      else ((if p.1 then -(digitsToNat q.1 : Int) else (digitsToNat q.1 : Int)), q.2)
    else (0, l)

/-- A full-string decimal literal (`Number(...)` semantics: the whole
remaining string must be consumed, unlike `parseFloat`). -/
def decimalFull (neg : Bool) (l : List Char) : JsNum :=
  let ip := takeDigits l
  let fp : List Nat × List Char :=
    match ip.2 with
    | [] => ([], [])
    | c :: rest => if c.toNat == 46 then takeDigits rest else ([], c :: rest)
  if ip.1.isEmpty && fp.1.isEmpty then .nan
  else
    let e := parseExpRem fp.2
    if !e.2.isEmpty then .nan
    else
      let mant : Nat := digitsToNat (ip.1 ++ fp.1)
      let exp : Int := e.1 - (fp.1.length : Int)
      let sgn : Int := if neg then -1 else 1
      if 0 ≤ exp then .fin (mkRat (sgn * ((mant * 10 ^ exp.toNat : Nat) : Int)) 1)
      else .fin (mkRat (sgn * (mant : Int)) (10 ^ (-exp).toNat))

/-- One hexadecimal digit value. -/
def hexDigitVal (c : Char) : Option Nat :=
  if 48 ≤ c.toNat && c.toNat ≤ 57 then some (c.toNat - 48)
  else if 97 ≤ c.toNat && c.toNat ≤ 102 then some (c.toNat - 87)
  else if 65 ≤ c.toNat && c.toNat ≤ 70 then some (c.toNat - 55)
  else none

/-- A full-string run of hexadecimal digits. -/
def parseHexFull : List Char → Option Nat
  | [] => none
  | l => l.foldl (fun acc c => match acc, hexDigitVal c with
      | some a, some d => some (a * 16 + d)
      | _, _ => none) (some 0)

/-- JS `Number(string)`: trim; empty means `0`; `Infinity` with optional
sign; `0x` hex (no sign); otherwise a full-string decimal literal. -/
def jsNumberOfChars (l : List Char) : JsNum :=
  let t := jsTrimList l
  if t.isEmpty then .fin 0
  else
    let p : Bool × List Char :=
      match t with
      | [] => (false, [])
      | c :: rest =>
        if c.toNat == 43 then (false, rest)
        else if c.toNat == 45 then (true, rest) else (false, t)
    if p.2 = ("Infinity").data then (if p.1 then .ninf else .inf)
    else
      match t with
      | z :: x :: hx =>
        if z.toNat == 48 && (x.toNat == 120 || x.toNat == 88) then
          match parseHexFull hx with
          | some n => .fin (mkRat (n : Int) 1)
          | none => .nan
        else decimalFull p.1 p.2
      | _ => decimalFull p.1 p.2

/-- JS `Number(...)` on a field value (`Number(undefined)` and
`Number(plainObject)` are `NaN`). -/
def jsNumberOfRef : Option JRef → JsNum
  | none => .nan
  | some (.num q) => .fin q
  | some (.str s) => jsNumberOfChars s.data
  | some (.ref _) => .nan

/-- Insert `en-US` thousands separators, walking the digits
least-significant first; `cnt` counts down to the next separator. -/
def group3revAux : Nat → List Char → List Char
  | _, [] => []
  | 0, c :: rest => ',' :: (c :: group3revAux 2 rest)
  | n + 1, c :: rest => c :: group3revAux n rest

/-- Insert `en-US` thousands separators; the input and output digit lists
are least-significant first. -/
def group3rev (l : List Char) : List Char := group3revAux 3 l

/-- `Number.prototype.toLocaleString()` with the `en-US` defaults: group the
integer part in threes, keep at most three fraction digits (rounded half
away from zero), drop trailing fraction zeros. -/
def localeStringOfRat (q : ℚ) : String :=
  let n : Nat := q.num.natAbs
  let d : Nat := q.den
  let r : Nat := (n * 1000 * 2 + d) / (2 * d)
  let ipart := r / 1000
  let fpart := r % 1000
  let grouped := (group3rev (Nat.repr ipart).data.reverse).reverse
  let frac : List Char :=
    if fpart == 0 then []
    else
      let f3 := [fpart / 100, (fpart / 10) % 10, fpart % 10]
      let fd := (f3.reverse.dropWhile (fun x => x == 0)).reverse
      '.' :: fd.map (fun x => Char.ofNat (48 + x))
  if q.num < 0 then "-" ++ (⟨grouped ++ frac⟩ : String) else (⟨grouped ++ frac⟩ : String)

/-- `toLocaleString()` on a JS number (`NaN` prints `NaN`, the infinities
print the infinity sign). -/
def jsLocaleString : JsNum → String
  | .fin q => localeStringOfRat q
  | .nan => "NaN"
  | .inf => "∞"
  | .ninf => "-∞"

/-- `generateInputSummary(calculatorSlug, inputJson)` (`results.ts`
161-184): a fixed template per known key - interpolating the stored values,
with the concentration clause added only when that field is truthy, and the
planting cost rendered through `Number(...).toLocaleString()` - and
`safeJsonStringify(inputJson)` for every other key.  (The surrounding
`try/catch` is dead in this model: no template can  throw.) -/
def generateInputSummary (calculatorSlug : String) (h : JHeap) (root : Nat) : String :=
  match calculatorSlug with
  | "fertilizer-requirement" =>
    "Area: " ++ interpField (fieldOf h root "area_ha") ++ " ha, Dose: " ++
      interpField (fieldOf h root "dose_kg_per_ha") ++ " kg/ha"
  | "chicken-feed-daily" =>
    "Chickens: " ++ interpField (fieldOf h root "chicken_count") ++ ", Feed per chicken: " ++
      interpField (fieldOf h root "feed_kg_per_chicken_per_day") ++ " kg/day"
  | "livestock-medicine-dosage" =>
    let concentrationText :=
      if truthyRef (fieldOf h root "concentration_mg_per_ml") then
        ", Concentration: " ++ interpField (fieldOf h root "concentration_mg_per_ml") ++ " mg/ml"
      else ""
    "Weight: " ++ interpField (fieldOf h root "weight_kg") ++ " kg, Dose: " ++
      interpField (fieldOf h root "dose_mg_per_kg") ++ " mg/kg" ++ concentrationText
  | "harvest-estimation" =>
    "Area: " ++ interpField (fieldOf h root "area_ha") ++ " ha, Yield: " ++
      interpField (fieldOf h root "yield_ton_per_ha") ++ " ton/ha"
  | "planting-cost" =>
    "Area: " ++ interpField (fieldOf h root "area_ha") ++ " ha, Cost per ha: Rp " ++
      jsLocaleString (jsNumberOfRef (fieldOf h root "cost_rp_per_ha"))
  | _ => safeJsonStringify h root

end TaniHitung
namespace TaniHitung

/-- C6 (amended): for each of the five known formula keys
`generateInputSummary` produces its fixed template interpolating the stored
field values, where: a missing field renders as the literal `undefined`
(template interpolation), except the planting-cost `cost_rp_per_ha` field,
which is passed through `Number(...).toLocaleString()` and so renders with
`en-US` thousands separators and as `NaN` when missing; and the
concentration clause of the medicine formula is appended exactly when that
field is present with a truthy (nonzero, nonempty) value - not merely
present.  The conjuncts include the spec's example
`{area_ha: 2.5, dose_kg_per_ha: 100} → "Area: 2.5 ha, Dose: 100 kg/ha"`
and concrete missing-field renderings; the formatter never throws (it is a
total function of the stored object). -/
theorem generateInputSummary_templates :
    (∀ (h : JHeap) (root : Nat), generateInputSummary "fertilizer-requirement" h root =
      "Area: " ++ interpField (fieldOf h root "area_ha") ++ " ha, Dose: " ++
        interpField (fieldOf h root "dose_kg_per_ha") ++ " kg/ha")
  ∧ (∀ (h : JHeap) (root : Nat), generateInputSummary "chicken-feed-daily" h root =
      "Chickens: " ++ interpField (fieldOf h root "chicken_count") ++ ", Feed per chicken: " ++
        interpField (fieldOf h root "feed_kg_per_chicken_per_day") ++ " kg/day")
  ∧ (∀ (h : JHeap) (root : Nat), generateInputSummary "livestock-medicine-dosage" h root =
      "Weight: " ++ interpField (fieldOf h root "weight_kg") ++ " kg, Dose: " ++
        interpField (fieldOf h root "dose_mg_per_kg") ++ " mg/kg" ++
        (if truthyRef (fieldOf h root "concentration_mg_per_ml") then
          ", Concentration: " ++ interpField (fieldOf h root "concentration_mg_per_ml") ++
            " mg/ml"
        else ""))
  ∧ (∀ (h : JHeap) (root : Nat), generateInputSummary "harvest-estimation" h root =
      "Area: " ++ interpField (fieldOf h root "area_ha") ++ " ha, Yield: " ++
        interpField (fieldOf h root "yield_ton_per_ha") ++ " ton/ha")
  ∧ (∀ (h : JHeap) (root : Nat), generateInputSummary "planting-cost" h root =
      "Area: " ++ interpField (fieldOf h root "area_ha") ++ " ha, Cost per ha: Rp " ++
        jsLocaleString (jsNumberOfRef (fieldOf h root "cost_rp_per_ha")))
  ∧ (∀ q : ℚ, truthyRef (some (.num q)) = decide (q ≠ 0))
  ∧ truthyRef none = false
  ∧ interpField none = "undefined"
  ∧ jsLocaleString (jsNumberOfRef none) = "NaN"
  ∧ generateInputSummary "fertilizer-requirement"
      [[("area_ha", .num (mkRat 5 2)), ("dose_kg_per_ha", .num 100)]] 0 =
      "Area: 2.5 ha, Dose: 100 kg/ha"
  ∧ generateInputSummary "fertilizer-requirement" [[]] 0 =
      "Area: undefined ha, Dose: undefined kg/ha"
  ∧ generateInputSummary "planting-cost" [[("area_ha", JRef.num 1)]] 0 =
      "Area: 1 ha, Cost per ha: Rp NaN"
  ∧ generateInputSummary "planting-cost"
      [[("area_ha", JRef.num 2), ("cost_rp_per_ha", JRef.num 1000000)]] 0 =
      "Area: 2 ha, Cost per ha: Rp 1,000,000" :=
  ⟨fun _ _ => rfl, fun _ _ => rfl, fun _ _ => rfl, fun _ _ => rfl, fun _ _ => rfl,
    fun _ => rfl, rfl, rfl, by decide, by decide, by decide, by decide, by decide⟩

/-- Counterexample to C6 as stated: in the stored input
`{weight_kg: 10, dose_mg_per_kg: 2, concentration_mg_per_ml: 0}` the
concentration field IS present, yet the code's truthiness test (`0` is
falsy) drops the concentration clause, so the summary is NOT the
claim's template-with-clause. -/
theorem generateInputSummary_concentration_presence_counterexample :
    fieldOf [[("weight_kg", JRef.num 10), ("dose_mg_per_kg", JRef.num 2),
        ("concentration_mg_per_ml", JRef.num 0)]] 0 "concentration_mg_per_ml" =
      some (JRef.num 0)
    ∧ generateInputSummary "livestock-medicine-dosage"
        [[("weight_kg", JRef.num 10), ("dose_mg_per_kg", JRef.num 2),
          ("concentration_mg_per_ml", JRef.num 0)]] 0 = "Weight: 10 kg, Dose: 2 mg/kg"
    ∧ generateInputSummary "livestock-medicine-dosage"
        [[("weight_kg", JRef.num 10), ("dose_mg_per_kg", JRef.num 2),
          ("concentration_mg_per_ml", JRef.num 0)]] 0 ≠
        "Weight: 10 kg, Dose: 2 mg/kg, Concentration: 0 mg/ml" :=
  ⟨by decide, by decide, by decide⟩

end TaniHitung
namespace TaniHitung

/-! ### Specification-side JSON values for the fallback-serialisation claim

`JTree` is a well-founded (hence non-circular) JSON value; `RepT h r t`
says heap reference `r` represents the tree `t`.  `specJsonOfTree` renders
a tree the way the spec describes `JSON.stringify` output ("valid JSON
reproducing the input mapping"); the fallback claim compares the code's
serialisation against it. -/

mutual

/-- A well-founded JSON value: number, string, or object. -/
inductive JTree where
  | num (q : ℚ)
  | str (s : String)
  | obj (fs : JFields)

/-- The (ordered) fields of a JSON object value. -/
inductive JFields where
  | nil
  | cons (k : String) (v : JTree) (rest : JFields)

end

mutual

/-- Spec-side JSON rendering of a tree. -/
def specJsonOfTree : JTree → List Char
  | .num q => (qToString q).data
  | .str s => jsonQuote s
  | .obj fs => lbrace :: (joinComma (specJsonOfFields fs) ++ [rbrace])

/-- Spec-side JSON rendering of object fields. -/
def specJsonOfFields : JFields → List (List Char)
  | .nil => []
  | .cons k v rest => (jsonQuote k ++ (colonChar :: specJsonOfTree v)) :: specJsonOfFields rest

end

mutual

/-- Number of nodes of a tree (at least one). -/
def sizeT : JTree → Nat
  | .num _ => 1
  | .str _ => 1
  | .obj fs => sizeF fs + 1

/-- Number of nodes of a field list (at least one). -/
def sizeF : JFields → Nat
  | .nil => 1
  | .cons _ v rest => sizeT v + sizeF rest + 1

end

mutual

/-- `RepT h r t`: heap reference `r` represents the tree `t`. -/
def RepT (h : JHeap) : JRef → JTree → Prop
  | .num q, .num q2 => q = q2
  | .str s, .str s2 => s = s2
  | .ref i, .obj fs => i < h.length ∧ RepF h (h.getD i []) fs
  | _, _ => False

/-- `RepF h l fs`: heap field list `l` represents the tree fields `fs`. -/
def RepF (h : JHeap) : List (String × JRef) → JFields → Prop
  | [], .nil => True
  | (k, v) :: rest, .cons k2 t fs => k = k2 ∧ RepT h v t ∧ RepF h rest fs
  | _, _ => False

end

/-- `RefReaches h r i`: following field references from `r` can enter heap
object `i`. -/
inductive RefReaches (h : JHeap) : JRef → Nat → Prop where
  | here (i : Nat) : RefReaches h (.ref i) i
  | deeper (i j : Nat) (k : String) (v : JRef) : (k, v) ∈ h.getD i [] →
      RefReaches h v j → RefReaches h (.ref i) j

/-- Heap object `i` lies on a reference cycle. -/
def CycleAt (h : JHeap) (i : Nat) : Prop :=
  ∃ kv ∈ h.getD i [], RefReaches h kv.2 i

/-- `m` occurs as a contiguous segment of `l`. -/
def containsSeg (l m : List Char) : Prop := ∃ p q, l = p ++ (m ++ q)

end TaniHitung
namespace TaniHitung

theorem containsSeg_append_left {a b m : List Char} (h : containsSeg a m) :
    containsSeg (a ++ b) m := by
  obtain ⟨p, q, rfl⟩ := h
  exact ⟨p, q ++ b, by simp⟩

theorem containsSeg_append_right {a b m : List Char} (h : containsSeg b m) :
    containsSeg (a ++ b) m := by
  obtain ⟨p, q, rfl⟩ := h
  exact ⟨a ++ p, q, by simp⟩

theorem containsSeg_cons {l m : List Char} (c : Char) (h : containsSeg l m) :
    containsSeg (c :: l) m :=
  containsSeg_append_right (a := [c]) h

theorem joinComma_contains {pieces : List (List Char)} {o m : List Char}
    (ho : o ∈ pieces) (hc : containsSeg o m) : containsSeg (joinComma pieces) m := by
  induction pieces with
  | nil => cases ho
  | cons x xs ih =>
    cases xs with
    | nil =>
      rcases List.mem_singleton.1 ho with rfl
      simpa [joinComma] using hc
    | cons y ys =>
      rcases List.mem_cons.1 ho with rfl | hmem
      · exact containsSeg_append_left hc
      · exact containsSeg_append_right (containsSeg_cons _ (ih hmem))

theorem circ_in_quoted : containsSeg (jsonQuote "[Circular]") (("[Circular]").data) :=
  ⟨['"'], ['"'], by decide⟩

/-- The piece built for one field contains everything its value's rendering
contains. -/
theorem fieldPiece_contains {k : String} {sv m : List Char} (h : containsSeg sv m) :
    containsSeg (jsonQuote k ++ (colonChar :: sv)) m :=
  containsSeg_append_right (containsSeg_cons _ h)

/-- The rendered object contains everything one of its pieces contains. -/
theorem objectOut_contains {pieces : List (List Char)} {o m : List Char}
    (ho : o ∈ pieces) (hc : containsSeg o m) :
    containsSeg (lbrace :: (joinComma pieces ++ [rbrace])) m :=
  containsSeg_cons _ (containsSeg_append_left (joinComma_contains ho hc))

/-- `seen` never shrinks during a replacer run. -/
theorem stringifyWithSeen_mono (h : JHeap) : ∀ fuel,
    (∀ seen r out seen2, stringifyWithSeen h fuel seen r = .ok (out, seen2) → seen ⊆ seen2)
      ∧ (∀ seen fields outs seen2,
        stringifyWithSeenFields h fuel seen fields = .ok (outs, seen2) → seen ⊆ seen2) := by
  intro fuel
  induction fuel with
  | zero =>
    constructor
    · intro seen r out seen2 heq
      simp [stringifyWithSeen] at heq
    · intro seen fields outs seen2 heq
      simp [stringifyWithSeenFields] at heq
  | succ fuel ih =>
    constructor
    · intro seen r out seen2 heq
      cases r with
      | num q =>
        simp [stringifyWithSeen] at heq
        rw [← heq.2]
        exact fun _ hx => hx
      | str s =>
        simp [stringifyWithSeen] at heq
        rw [← heq.2]
        exact fun _ hx => hx
      | ref i =>
        by_cases hi : i ∈ seen
        · simp [stringifyWithSeen, hi] at heq
          rw [← heq.2]
          exact fun _ hx => hx
        · simp only [stringifyWithSeen, if_neg hi] at heq
          cases hf : stringifyWithSeenFields h fuel (i :: seen) (h.getD i []) with
          | error e => rw [hf] at heq; simp at heq
          | ok ps =>
            rw [hf] at heq
            rcases ps with ⟨pieces, seenf⟩
            simp at heq
            intro x hx
            rw [← heq.2]
            exact ih.2 (i :: seen) _ _ _ hf (List.mem_cons_of_mem _ hx)
    · intro seen fields outs seen2 heq
      cases fields with
      | nil =>
        simp [stringifyWithSeenFields] at heq
        rw [← heq.2]
        exact fun _ hx => hx
      | cons kv rest =>
        rcases kv with ⟨k, v⟩
        simp only [stringifyWithSeenFields] at heq
        cases hv : stringifyWithSeen h fuel seen v with
        | error e => rw [hv] at heq; simp at heq
        | ok p1 =>
          rw [hv] at heq
          rcases p1 with ⟨sv, seen1⟩
          dsimp only at heq
          cases hr : stringifyWithSeenFields h fuel seen1 rest with
          | error e => rw [hr] at heq; simp at heq
          | ok p2 =>
            rw [hr] at heq
            rcases p2 with ⟨svs, seenr⟩
            simp at heq
            intro x hx
            rw [← heq.2]
            exact ih.2 seen1 _ _ _ hr (ih.1 seen _ _ _ hv hx)

end TaniHitung
namespace TaniHitung

/-- In a replacer run whose output does not contain `[Circular]`, no node
reachable from the serialised value was in the starting `seen` set. -/
theorem stringifyWithSeen_clean (h : JHeap) : ∀ fuel,
    (∀ seen r out seen2, stringifyWithSeen h fuel seen r = .ok (out, seen2) →
      ¬ containsSeg out (("[Circular]").data) →
      ∀ j, RefReaches h r j → j ∉ seen)
      ∧ (∀ seen fields outs seen2,
        stringifyWithSeenFields h fuel seen fields = .ok (outs, seen2) →
        (∀ o ∈ outs, ¬ containsSeg o (("[Circular]").data)) →
        ∀ (k : String) (v : JRef), (k, v) ∈ fields → ∀ j, RefReaches h v j → j ∉ seen) := by
  intro fuel
  induction fuel with
  | zero =>
    constructor
    · intro seen r out seen2 heq
      simp [stringifyWithSeen] at heq
    · intro seen fields outs seen2 heq
      simp [stringifyWithSeenFields] at heq
  | succ fuel ih =>
    constructor
    · intro seen r out seen2 heq hclean j hreach
      cases r with
      | num q => cases hreach
      | str s => cases hreach
      | ref i =>
        by_cases hi : i ∈ seen
        · simp [stringifyWithSeen, hi] at heq
          exact absurd (heq.1 ▸ circ_in_quoted) hclean
        · simp only [stringifyWithSeen, if_neg hi] at heq
          cases hf : stringifyWithSeenFields h fuel (i :: seen) (h.getD i []) with
          | error e => rw [hf] at heq; simp at heq
          | ok ps =>
            rw [hf] at heq
            rcases ps with ⟨pieces, seenf⟩
            simp at heq
            have hcleanPieces : ∀ o ∈ pieces, ¬ containsSeg o (("[Circular]").data) := by
              intro o ho hc
              apply hclean
              rw [← heq.1]
              exact objectOut_contains ho hc
            cases hreach with
            | here => exact hi
            | deeper _ _ k v hmem hreach2 =>
              intro hj
              exact ih.2 (i :: seen) _ _ _ hf hcleanPieces k v hmem j hreach2
                (List.mem_cons_of_mem _ hj)
    · intro seen fields outs seen2 heq houts k v hmem j hreach
      cases fields with
      | nil => cases hmem
      | cons kv rest =>
        rcases kv with ⟨k0, v0⟩
        simp only [stringifyWithSeenFields] at heq
        cases hv : stringifyWithSeen h fuel seen v0 with
        | error e => rw [hv] at heq; simp at heq
        | ok p1 =>
          rw [hv] at heq
          rcases p1 with ⟨sv, seen1⟩
          dsimp only at heq
          cases hr : stringifyWithSeenFields h fuel seen1 rest with
          | error e => rw [hr] at heq; simp at heq
          | ok p2 =>
            rw [hr] at heq
            rcases p2 with ⟨svs, seenr⟩
            simp at heq
            rcases List.mem_cons.1 hmem with hhead | htail
            · have hv0 : v = v0 := congrArg Prod.snd hhead
              have hcleansv : ¬ containsSeg sv (("[Circular]").data) := by
                intro hc
                apply houts (jsonQuote k0 ++ (colonChar :: sv))
                · rw [← heq.1]
                  exact List.mem_cons_self _ _
                · exact fieldPiece_contains hc
              exact ih.1 seen v0 _ _ hv hcleansv j (hv0 ▸ hreach)
            · have hj1 := ih.2 seen1 rest _ _ hr (fun o ho hc => houts o
                (by rw [← heq.1]; exact List.mem_cons_of_mem _ ho) hc) k v htail j hreach
              intro hj
              exact hj1 ((stringifyWithSeen_mono h fuel).1 seen v0 _ _ hv hj)

/-- In a replacer run whose output does not contain `[Circular]`, no node
reachable from the serialised value lies on a reference cycle. -/
theorem stringifyWithSeen_nocycle (h : JHeap) : ∀ fuel,
    (∀ seen r out seen2, stringifyWithSeen h fuel seen r = .ok (out, seen2) →
      ¬ containsSeg out (("[Circular]").data) →
      ∀ i, RefReaches h r i → ¬ CycleAt h i)
      ∧ (∀ seen fields outs seen2,
        stringifyWithSeenFields h fuel seen fields = .ok (outs, seen2) →
        (∀ o ∈ outs, ¬ containsSeg o (("[Circular]").data)) →
        ∀ (k : String) (v : JRef), (k, v) ∈ fields → ∀ i, RefReaches h v i → ¬ CycleAt h i) := by
  intro fuel
  induction fuel with
  | zero =>
    constructor
    · intro seen r out seen2 heq
      simp [stringifyWithSeen] at heq
    · intro seen fields outs seen2 heq
      simp [stringifyWithSeenFields] at heq
  | succ fuel ih =>
    constructor
    · intro seen r out seen2 heq hclean i hreach
      cases r with
      | num q => cases hreach
      | str s => cases hreach
      | ref i0 =>
        by_cases hi : i0 ∈ seen
        · simp [stringifyWithSeen, hi] at heq
          exact absurd (heq.1 ▸ circ_in_quoted) hclean
        · simp only [stringifyWithSeen, if_neg hi] at heq
          cases hf : stringifyWithSeenFields h fuel (i0 :: seen) (h.getD i0 []) with
          | error e => rw [hf] at heq; simp at heq
          | ok ps =>
            rw [hf] at heq
            rcases ps with ⟨pieces, seenf⟩
            simp at heq
            have hcleanPieces : ∀ o ∈ pieces, ¬ containsSeg o (("[Circular]").data) := by
              intro o ho hc
              apply hclean
              rw [← heq.1]
              exact objectOut_contains ho hc
            cases hreach with
            | here =>
              intro hcyc
              obtain ⟨⟨k, v⟩, hmem, hreachv⟩ := hcyc
              exact (stringifyWithSeen_clean h fuel).2 (i :: seen) _ _ _ hf hcleanPieces
                k v hmem i hreachv (List.mem_cons_self _ _)
            | deeper _ _ k v hmem hreachv =>
              exact ih.2 (i0 :: seen) _ _ _ hf hcleanPieces k v hmem i hreachv
    · intro seen fields outs seen2 heq houts k v hmem i hreach
      cases fields with
      | nil => cases hmem
      | cons kv rest =>
        rcases kv with ⟨k0, v0⟩
        simp only [stringifyWithSeenFields] at heq
        cases hv : stringifyWithSeen h fuel seen v0 with
        | error e => rw [hv] at heq; simp at heq
        | ok p1 =>
          rw [hv] at heq
          rcases p1 with ⟨sv, seen1⟩
          dsimp only at heq
          cases hr : stringifyWithSeenFields h fuel seen1 rest with
          | error e => rw [hr] at heq; simp at heq
          | ok p2 =>
            rw [hr] at heq
            rcases p2 with ⟨svs, seenr⟩
            simp at heq
            rcases List.mem_cons.1 hmem with hhead | htail
            · have hv0 : v = v0 := congrArg Prod.snd hhead
              have hcleansv : ¬ containsSeg sv (("[Circular]").data) := by
                intro hc
                apply houts (jsonQuote k0 ++ (colonChar :: sv))
                · rw [← heq.1]
                  exact List.mem_cons_self _ _
                · exact fieldPiece_contains hc
              exact ih.1 seen v0 _ _ hv hcleansv i (hv0 ▸ hreach)
            · exact ih.2 seen1 rest _ _ hr (fun o ho hc => houts o
                (by rw [← heq.1]; exact List.mem_cons_of_mem _ ho) hc) k v htail i hreach

end TaniHitung
namespace TaniHitung

/-- A `cyclic` failure of plain `JSON.stringify` exhibits either a node of
the serialisation stack reached again, or a reachable reference cycle. -/
theorem stringifyPlain_cyclic (h : JHeap) : ∀ fuel,
    (∀ path r, stringifyPlain h fuel path r = .error .cyclic →
      (∃ j ∈ path, RefReaches h r j) ∨ (∃ i, RefReaches h r i ∧ CycleAt h i))
      ∧ (∀ path fields, stringifyPlainFields h fuel path fields = .error .cyclic →
        ∃ k v, (k, v) ∈ fields ∧
          ((∃ j ∈ path, RefReaches h v j) ∨ (∃ i, RefReaches h v i ∧ CycleAt h i))) := by
  intro fuel
  induction fuel with
  | zero =>
    constructor
    · intro path r heq
      simp [stringifyPlain] at heq
    · intro path fields heq
      simp [stringifyPlainFields] at heq
  | succ fuel ih =>
    constructor
    · intro path r heq
      cases r with
      | num q => simp [stringifyPlain] at heq
      | str s => simp [stringifyPlain] at heq
      | ref i =>
        by_cases hi : i ∈ path
        · exact Or.inl ⟨i, hi, RefReaches.here i⟩
        · simp only [stringifyPlain, if_neg hi] at heq
          cases hf : stringifyPlainFields h fuel (i :: path) (h.getD i []) with
          | ok pieces => rw [hf] at heq; simp at heq
          | error e =>
            rw [hf] at heq
            simp at heq
            subst heq
            obtain ⟨k, v, hmem, hsub⟩ := ih.2 (i :: path) (h.getD i []) hf
            rcases hsub with ⟨j, hj, hrv⟩ | ⟨m, hrm, hcyc⟩
            · rcases List.mem_cons.1 hj with rfl | hjp
              · exact Or.inr ⟨j, RefReaches.here j, ⟨(k, v), hmem, hrv⟩⟩
              · exact Or.inl ⟨j, hjp, RefReaches.deeper i j k v hmem hrv⟩
            · exact Or.inr ⟨m, RefReaches.deeper i m k v hmem hrm, hcyc⟩
    · intro path fields heq
      cases fields with
      | nil => simp [stringifyPlainFields] at heq
      | cons kv rest =>
        rcases kv with ⟨k0, v0⟩
        simp only [stringifyPlainFields] at heq
        cases hv : stringifyPlain h fuel path v0 with
        | error e =>
          rw [hv] at heq
          simp at heq
          subst heq
          exact ⟨k0, v0, List.mem_cons_self _ _, ih.1 path v0 hv⟩
        | ok sv =>
          rw [hv] at heq
          dsimp only at heq
          cases hr : stringifyPlainFields h fuel path rest with
          | error e =>
            rw [hr] at heq
            simp at heq
            subst heq
            obtain ⟨k, v, hmem, hsub⟩ := ih.2 path rest hr
            exact ⟨k, v, List.mem_cons_of_mem _ hmem, hsub⟩
          | ok svs => rw [hr] at heq; simp at heq

/-- A successful plain serialisation is stable under extra fuel. -/
theorem stringifyPlain_mono (h : JHeap) : ∀ fuel,
    (∀ fuel2 path r out, stringifyPlain h fuel path r = .ok out → fuel ≤ fuel2 →
      stringifyPlain h fuel2 path r = .ok out)
      ∧ (∀ fuel2 path fields outs, stringifyPlainFields h fuel path fields = .ok outs →
        fuel ≤ fuel2 → stringifyPlainFields h fuel2 path fields = .ok outs) := by
  intro fuel
  induction fuel with
  | zero =>
    constructor
    · intro fuel2 path r out heq
      simp [stringifyPlain] at heq
    · intro fuel2 path fields outs heq
      simp [stringifyPlainFields] at heq
  | succ fuel ih =>
    constructor
    · intro fuel2 path r out heq hle
      obtain ⟨f2, rfl⟩ : ∃ f2, fuel2 = f2 + 1 := ⟨fuel2 - 1, by omega⟩
      cases r with
      | num q => simpa [stringifyPlain] using heq
      | str s => simpa [stringifyPlain] using heq
      | ref i =>
        by_cases hi : i ∈ path
        · simp [stringifyPlain, hi] at heq
        · simp only [stringifyPlain, if_neg hi] at heq ⊢
          cases hf : stringifyPlainFields h fuel (i :: path) (h.getD i []) with
          | error e => rw [hf] at heq; simp at heq
          | ok pieces =>
            rw [hf] at heq
            rw [ih.2 f2 (i :: path) (h.getD i []) pieces hf (by omega)]
            exact heq
    · intro fuel2 path fields outs heq hle
      obtain ⟨f2, rfl⟩ : ∃ f2, fuel2 = f2 + 1 := ⟨fuel2 - 1, by omega⟩
      cases fields with
      | nil => simpa [stringifyPlainFields] using heq
      | cons kv rest =>
        rcases kv with ⟨k0, v0⟩
        simp only [stringifyPlainFields] at heq ⊢
        cases hv : stringifyPlain h fuel path v0 with
        | error e => rw [hv] at heq; simp at heq
        | ok sv =>
          rw [hv] at heq
          dsimp only at heq
          cases hr : stringifyPlainFields h fuel path rest with
          | error e => rw [hr] at heq; simp at heq
          | ok svs =>
            rw [hr] at heq
            rw [ih.1 f2 path v0 sv hv (by omega)]
            dsimp only
            rw [ih.2 f2 path rest svs hr (by omega)]
            exact heq

end TaniHitung
namespace TaniHitung

/-- The number of valid heap indices not on the serialisation stack. -/
def validOutside (h : JHeap) (path : List Nat) : Nat :=
  ((List.range h.length).filter (fun i => !path.contains i)).length

theorem le_foldr_max (l : List Nat) (x : Nat) (hx : x ∈ l) : x ≤ l.foldr max 0 := by
  induction l with
  | nil => cases hx
  | cons a t ih =>
    rcases List.mem_cons.1 hx with rfl | hxt
    · exact Nat.le_max_left _ _
    · exact le_trans (ih hxt) (Nat.le_max_right _ _)

theorem getD_length_le_max (h : JHeap) {i : Nat} (hi : i < h.length) :
    (h.getD i []).length ≤ maxFieldLen h := by
  apply le_foldr_max
  rw [List.getD_eq_getElem?_getD, List.getElem?_eq_getElem hi]
  exact List.mem_map.2 ⟨h[i], List.getElem_mem hi, rfl⟩

theorem filter_notmem_cons_length (l : List Nat) (path : List Nat) (i : Nat)
    (hnd : l.Nodup) (hil : i ∈ l) (hip : i ∉ path) :
    (l.filter (fun x => !(i :: path).contains x)).length + 1 =
      (l.filter (fun x => !path.contains x)).length := by
  induction l with
  | nil => cases hil
  | cons a t ih =>
    rcases List.nodup_cons.1 hnd with ⟨hat, hndt⟩
    by_cases hai : a = i
    · subst hai
      have hcongr : t.filter (fun x => !(a :: path).contains x) =
          t.filter (fun x => !path.contains x) := by
        apply List.filter_congr
        intro x hxt
        have hxa : x ≠ a := fun hh => hat (hh ▸ hxt)
        simp [hxa]
      rw [List.filter_cons_of_neg (by simp), List.filter_cons_of_pos (by simpa using hip),
        hcongr]
      simp
    · have hit : i ∈ t := by
        rcases List.mem_cons.1 hil with rfl | hit
        · exact absurd rfl hai
        · exact hit
      cases hpa : path.contains a with
      | true =>
        have hpam : a ∈ path := by simpa using hpa
        rw [List.filter_cons_of_neg (by simp [hpam]), List.filter_cons_of_neg (by simp [hpam])]
        exact ih hndt hit
      | false =>
        have hpam : a ∉ path := by simpa using hpa
        rw [List.filter_cons_of_pos (by simp [hai, hpam]),
          List.filter_cons_of_pos (by simp [hpam])]
        have := ih hndt hit
        simp only [List.length_cons]
        omega
end TaniHitung
namespace TaniHitung

theorem validOutside_nil (h : JHeap) : validOutside h [] = h.length := by
  simp [validOutside]

theorem validOutside_cons (h : JHeap) (path : List Nat) (i : Nat)
    (hi : i < h.length) (hip : i ∉ path) :
    validOutside h (i :: path) + 1 = validOutside h path :=
  filter_notmem_cons_length (List.range h.length) path i (List.nodup_range _)
    (List.mem_range.2 hi) hip

theorem stringifyPlain_fuel_aux (h : JHeap) : ∀ fuel : Nat,
    (∀ path r, path.Nodup → (∀ j ∈ path, j < h.length) →
      (maxFieldLen h + 2) * validOutside h path + 2 ≤ fuel →
      stringifyPlain h fuel path r ≠ .error .fuel) ∧
    (∀ path fields, path.Nodup → (∀ j ∈ path, j < h.length) →
      fields.length ≤ maxFieldLen h →
      (maxFieldLen h + 2) * validOutside h path + 2 + fields.length ≤ fuel →
      stringifyPlainFields h fuel path fields ≠ .error .fuel) := by
  intro fuel
  induction fuel with
  | zero =>
    constructor
    · intro path r _ _ hfuel
      omega
    · intro path fields _ _ _ hfuel
      omega
  | succ fuel ih =>
    obtain ⟨ihP, ihQ⟩ := ih
    constructor
    · intro path r hnd hvalid hfuel
      cases r with
      | num q => simp [stringifyPlain]
      | str s => simp [stringifyPlain]
      | ref i =>
        by_cases hip : i ∈ path
        · intro heq
          simp only [stringifyPlain, if_pos hip] at heq
          exact absurd heq (by simp)
        · by_cases hi : i < h.length
          · have key := validOutside_cons h path i hi hip
            have hexp : (maxFieldLen h + 2) * validOutside h path =
                (maxFieldLen h + 2) * validOutside h (i :: path) + (maxFieldLen h + 2) := by
              rw [← key]; ring
            have hlen := getD_length_le_max h hi
            have hinner := ihQ (i :: path) (h.getD i [])
              (List.nodup_cons.2 ⟨hip, hnd⟩)
              (by
                intro j hj
                rcases List.mem_cons.1 hj with rfl | hj
                · exact hi
                · exact hvalid j hj)
              hlen (by omega)
            intro heq
            simp only [stringifyPlain, if_neg hip] at heq
            cases hres : stringifyPlainFields h fuel (i :: path) (h.getD i []) with
            | error e =>
              rw [hres] at heq
              dsimp only at heq
              have he : e = .fuel := by
                have := (Except.error.injEq _ _ ▸ heq : e = JsonErr.fuel)
                exact this
              exact hinner (he ▸ hres)
            | ok pieces =>
              rw [hres] at heq
              dsimp only at heq
              exact absurd heq (by simp)
          · have hgd : h.getD i [] = [] :=
              List.getD_eq_default _ _ (Nat.le_of_not_lt hi)
            have hf1 : 1 ≤ fuel := by omega
            cases fuel with
            | zero => omega
            | succ f =>
              intro heq
              simp only [stringifyPlain, if_neg hip, hgd, stringifyPlainFields] at heq
              exact absurd heq (by simp)
    · intro path fields hnd hvalid hlen hfuel
      cases fields with
      | nil => simp [stringifyPlainFields]
      | cons kv rest =>
        obtain ⟨k, v⟩ := kv
        simp only [List.length_cons] at hlen hfuel
        have hinner1 := ihP path v hnd hvalid (by omega)
        have hinner2 := ihQ path rest hnd hvalid (by omega) (by omega)
        intro heq
        simp only [stringifyPlainFields] at heq
        cases h1 : stringifyPlain h fuel path v with
        | error e =>
          rw [h1] at heq
          dsimp only at heq
          have he : e = .fuel := (Except.error.injEq _ _ ▸ heq : e = JsonErr.fuel)
          exact hinner1 (he ▸ h1)
        | ok sv =>
          rw [h1] at heq
          dsimp only at heq
          cases h2 : stringifyPlainFields h fuel path rest with
          | error e =>
            rw [h2] at heq
            dsimp only at heq
            have he : e = .fuel := (Except.error.injEq _ _ ▸ heq : e = JsonErr.fuel)
            exact hinner2 (he ▸ h2)
          | ok svs =>
            rw [h2] at heq
            dsimp only at heq
            exact absurd heq (by simp)

theorem jsonStringifyPlain_no_fuel_error (h : JHeap) (root : Nat) :
    jsonStringifyPlain h root ≠ .error .fuel := by
  have := (stringifyPlain_fuel_aux h (jsonFuel h)).1 [] (.ref root)
    List.nodup_nil (by simp)
    (by rw [validOutside_nil]; simp [jsonFuel])
  exact this

theorem jsonStringifyPlain_error_cyclic (h : JHeap) (root : Nat) (e : JsonErr)
    (he : jsonStringifyPlain h root = .error e) : e = .cyclic := by
  cases e with
  | cyclic => rfl
  | fuel => exact absurd he (jsonStringifyPlain_no_fuel_error h root)

end TaniHitung
namespace TaniHitung

theorem sizeT_pos (t : JTree) : 1 ≤ sizeT t := by
  cases t <;> simp [sizeT]

theorem sizeF_pos (fs : JFields) : 1 ≤ sizeF fs := by
  cases fs <;> simp [sizeF]

/-- A field value of a represented object is itself represented, by a
strictly smaller tree. -/
theorem RepF_mem_size (h : JHeap) : ∀ (l : List (String × JRef)) (fs : JFields),
    RepF h l fs → ∀ (k : String) (v : JRef), (k, v) ∈ l →
    ∃ tv, RepT h v tv ∧ sizeT tv < sizeF fs := by
  intro l
  induction l with
  | nil =>
    intro fs _ k v hmem
    cases hmem
  | cons kv rest ih =>
    intro fs hrep k v hmem
    rcases kv with ⟨k0, v0⟩
    cases fs with
    | nil => simp [RepF] at hrep
    | cons k2 t fsr =>
      simp only [RepF] at hrep
      obtain ⟨hk, hrepv, hrepr⟩ := hrep
      rcases List.mem_cons.1 hmem with hhead | htail
      · have hv : v = v0 := congrArg Prod.snd hhead
        refine ⟨t, hv ▸ hrepv, ?_⟩
        have := sizeF_pos fsr
        simp only [sizeF]
        omega
      · obtain ⟨tv, h1, h2⟩ := ih fsr hrepr k v htail
        refine ⟨tv, h1, ?_⟩
        simp only [sizeF] at *
        omega

/-- A heap reference represents at most one tree. -/
theorem Rep_det (h : JHeap) : ∀ n : Nat,
    (∀ r t1 t2, sizeT t1 ≤ n → RepT h r t1 → RepT h r t2 → t1 = t2) ∧
    (∀ l fs1 fs2, sizeF fs1 ≤ n → RepF h l fs1 → RepF h l fs2 → fs1 = fs2) := by
  intro n
  induction n with
  | zero =>
    constructor
    · intro r t1 t2 hsz
      have := sizeT_pos t1
      omega
    · intro l fs1 fs2 hsz
      have := sizeF_pos fs1
      omega
  | succ n ih =>
    obtain ⟨ihP, ihQ⟩ := ih
    constructor
    · intro r t1 t2 hsz h1 h2
      cases r with
      | num q =>
        cases t1 <;> simp [RepT] at h1
        cases t2 <;> simp [RepT] at h2
        rw [← h1, ← h2]
      | str s =>
        cases t1 <;> simp [RepT] at h1
        cases t2 <;> simp [RepT] at h2
        rw [← h1, ← h2]
      | ref i =>
        cases t1 with
        | num q1 => simp [RepT] at h1
        | str s1 => simp [RepT] at h1
        | obj fs1 =>
          cases t2 with
          | num q2 => simp [RepT] at h2
          | str s2 => simp [RepT] at h2
          | obj fs2 =>
            simp only [RepT] at h1 h2
            have hsz2 : sizeF fs1 ≤ n := by
              simp only [sizeT] at hsz
              omega
            rw [ihQ _ fs1 fs2 hsz2 h1.2 h2.2]
    · intro l fs1 fs2 hsz h1 h2
      cases l with
      | nil =>
        cases fs1 <;> cases fs2 <;> simp [RepF] at h1 h2 ⊢
      | cons kv rest =>
        rcases kv with ⟨k0, v0⟩
        cases fs1 with
        | nil => simp [RepF] at h1
        | cons k1 t1 fsr1 =>
          cases fs2 with
          | nil => simp [RepF] at h2
          | cons k2 t2 fsr2 =>
            simp only [RepF] at h1 h2
            obtain ⟨hk1, hv1, hr1⟩ := h1
            obtain ⟨hk2, hv2, hr2⟩ := h2
            simp only [sizeF] at hsz
            have et : t1 = t2 := ihP v0 t1 t2 (by omega) hv1 hv2
            have er : fsr1 = fsr2 := ihQ rest fsr1 fsr2 (by omega) hr1 hr2
            rw [← hk1, ← hk2, et, er]

/-- Any node reachable from a represented reference is itself represented,
by a tree no larger than the original. -/
theorem Reach_Rep (h : JHeap) {v : JRef} {j : Nat} (hreach : RefReaches h v j) :
    ∀ t, RepT h v t → ∃ t2, RepT h (.ref j) t2 ∧ sizeT t2 ≤ sizeT t := by
  induction hreach with
  | here i =>
    intro t ht
    exact ⟨t, ht, le_refl _⟩
  | deeper i j k v hmem hreach2 ih =>
    intro t ht
    cases t with
    | num q => simp [RepT] at ht
    | str s => simp [RepT] at ht
    | obj fs =>
      simp only [RepT] at ht
      obtain ⟨tv, hrepv, hlt⟩ := RepF_mem_size h _ _ ht.2 k v hmem
      obtain ⟨t2, hrep2, hle⟩ := ih tv hrepv
      refine ⟨t2, hrep2, ?_⟩
      simp only [sizeT]
      omega

/-- A represented heap object does not lie on a reference cycle. -/
theorem Rep_no_cycle (h : JHeap) (i : Nat) (t : JTree) (hrep : RepT h (.ref i) t) :
    ¬ CycleAt h i := by
  intro hcyc
  obtain ⟨⟨k, v⟩, hmem, hreach⟩ := hcyc
  cases t with
  | num q => simp [RepT] at hrep
  | str s => simp [RepT] at hrep
  | obj fs =>
    simp only [RepT] at hrep
    obtain ⟨tv, hrepv, hlt⟩ := RepF_mem_size h _ _ hrep.2 k v hmem
    obtain ⟨t2, hrep2, hle⟩ := Reach_Rep h hreach tv hrepv
    have hdet : t2 = .obj fs :=
      (Rep_det h (sizeT t2)).1 (.ref i) t2 (.obj fs) (le_refl _) hrep2
        (by simp only [RepT]; exact hrep)
    rw [hdet] at hle
    simp only [sizeT] at hle
    omega

/-- A successful plain serialisation of a represented value produces
exactly the spec-side rendering of its tree. -/
theorem stringifyPlain_okOut (h : JHeap) : ∀ fuel : Nat,
    (∀ path r t out, RepT h r t → stringifyPlain h fuel path r = .ok out →
      out = specJsonOfTree t) ∧
    (∀ path fields fs outs, RepF h fields fs →
      stringifyPlainFields h fuel path fields = .ok outs →
      outs = specJsonOfFields fs) := by
  intro fuel
  induction fuel with
  | zero =>
    constructor
    · intro path r t out _ heq
      simp [stringifyPlain] at heq
    · intro path fields fs outs _ heq
      simp [stringifyPlainFields] at heq
  | succ fuel ih =>
    constructor
    · intro path r t out hrep heq
      cases r with
      | num q =>
        cases t <;> simp [RepT] at hrep
        simp only [stringifyPlain] at heq
        simp at heq
        rw [← heq, ← hrep, specJsonOfTree]
      | str s =>
        cases t <;> simp [RepT] at hrep
        simp only [stringifyPlain] at heq
        simp at heq
        rw [← heq, ← hrep, specJsonOfTree]
      | ref i =>
        cases t with
        | num q => simp [RepT] at hrep
        | str s => simp [RepT] at hrep
        | obj fs =>
          simp only [RepT] at hrep
          by_cases hip : i ∈ path
          · simp [stringifyPlain, hip] at heq
          · simp only [stringifyPlain, if_neg hip] at heq
            cases hf : stringifyPlainFields h fuel (i :: path) (h.getD i []) with
            | error e => rw [hf] at heq; simp at heq
            | ok pieces =>
              rw [hf] at heq
              simp at heq
              rw [← heq, ih.2 (i :: path) (h.getD i []) fs pieces hrep.2 hf,
                specJsonOfTree]
    · intro path fields fs outs hrep heq
      cases fields with
      | nil =>
        cases fs with
        | cons k t fsr => simp [RepF] at hrep
        | nil =>
          simp [stringifyPlainFields] at heq
          simp [heq, specJsonOfFields]
      | cons kv rest =>
        rcases kv with ⟨k0, v0⟩
        cases fs with
        | nil => simp [RepF] at hrep
        | cons k2 t fsr =>
          simp only [RepF] at hrep
          obtain ⟨hk, hrepv, hrepr⟩ := hrep
          simp only [stringifyPlainFields] at heq
          cases hv : stringifyPlain h fuel path v0 with
          | error e => rw [hv] at heq; simp at heq
          | ok sv =>
            rw [hv] at heq
            dsimp only at heq
            cases hr : stringifyPlainFields h fuel path rest with
            | error e => rw [hr] at heq; simp at heq
            | ok svs =>
              rw [hr] at heq
              simp at heq
              rw [← heq, ih.1 path v0 t sv hrepv hv,
                ih.2 path rest fsr svs hrepr hr, ← hk, specJsonOfFields]

/-- Plain `JSON.stringify` on a represented (non-circular) value succeeds
with the spec-side rendering. -/
theorem jsonStringifyPlain_rep (h : JHeap) (root : Nat) (t : JTree)
    (hrep : RepT h (.ref root) t) :
    jsonStringifyPlain h root = .ok (specJsonOfTree t) := by
  cases hres : jsonStringifyPlain h root with
  | ok out =>
    rw [(stringifyPlain_okOut h (jsonFuel h)).1 [] (.ref root) t out hrep hres]
  | error e =>
    have he := jsonStringifyPlain_error_cyclic h root e hres
    subst he
    rcases (stringifyPlain_cyclic h (jsonFuel h)).1 [] (.ref root) hres with
      ⟨j, hj, _⟩ | ⟨i, hreach, hcyc⟩
    · cases hj
    · obtain ⟨t2, hrep2, _⟩ := Reach_Rep h hreach t hrep
      exact absurd hcyc (Rep_no_cycle h i t2 hrep2)

/-- `safeJsonStringify` on a represented value returns the spec rendering. -/
theorem safeJsonStringify_rep (h : JHeap) (root : Nat) (t : JTree)
    (hrep : RepT h (.ref root) t) :
    safeJsonStringify h root = ⟨specJsonOfTree t⟩ := by
  rw [safeJsonStringify, jsonStringifyPlain_rep h root t hrep]

/-- When plain serialisation fails, the fallback output contains
`[Circular]` or is the literal `[Complex Object]`. -/
theorem safeJsonStringify_errorCase (h : JHeap) (root : Nat) (e : JsonErr)
    (he : jsonStringifyPlain h root = .error e) :
    containsSeg (safeJsonStringify h root).data (("[Circular]").data) ∨
      safeJsonStringify h root = "[Complex Object]" := by
  have hec := jsonStringifyPlain_error_cyclic h root e he
  subst hec
  rcases (stringifyPlain_cyclic h (jsonFuel h)).1 [] (.ref root) he with
    ⟨j, hj, _⟩ | ⟨i, hreach, hcyc⟩
  · cases hj
  cases hrep : jsonStringifyReplacer h root with
  | error e2 =>
    right
    rw [safeJsonStringify, he]
    dsimp only
    rw [hrep]
  | ok out2 =>
    left
    have hsafe : safeJsonStringify h root = ⟨out2⟩ := by
      rw [safeJsonStringify, he]
      dsimp only
      rw [hrep]
    rw [hsafe]
    obtain ⟨seen2, hws⟩ : ∃ seen2,
        stringifyWithSeen h (jsonFuel h) [] (.ref root) = .ok (out2, seen2) := by
      rw [jsonStringifyReplacer] at hrep
      cases hws : stringifyWithSeen h (jsonFuel h) [] (.ref root) with
      | error e3 => rw [hws] at hrep; simp [Except.map] at hrep
      | ok p =>
        rcases p with ⟨o, s2⟩
        rw [hws] at hrep
        simp [Except.map] at hrep
        exact ⟨s2, by rw [hrep]⟩
    by_contra hclean
    have hclean2 : ¬ containsSeg out2 (("[Circular]").data) := by
      simpa using hclean
    exact (stringifyWithSeen_nocycle h (jsonFuel h)).1 [] (.ref root) out2 seen2
      hws hclean2 i hreach hcyc

end TaniHitung
namespace TaniHitung

theorem generateInputSummary_unknown (key : String) (h : JHeap) (root : Nat)
    (h1 : key ≠ "fertilizer-requirement") (h2 : key ≠ "chicken-feed-daily")
    (h3 : key ≠ "livestock-medicine-dosage") (h4 : key ≠ "harvest-estimation")
    (h5 : key ≠ "planting-cost") :
    generateInputSummary key h root = safeJsonStringify h root := by
  unfold generateInputSummary
  split <;> simp_all

/-- C7: `generateInputSummary` never fails: on every unrecognised formula
key it falls back to `safeJsonStringify`; the plain serialisation of any
input representing a well-founded JSON tree succeeds and reproduces that
tree's JSON rendering (so the fallback returns valid JSON reproducing the
input mapping); and whenever plain serialisation fails (e.g. on a
self-referential object), the function still returns a string - one
containing `[Circular]`, or the literal `[Complex Object]` - instead of
throwing. -/
theorem generateInputSummary_fallback_serialization :
    (∀ (key : String) (h : JHeap) (root : Nat),
      key ≠ "fertilizer-requirement" → key ≠ "chicken-feed-daily" →
      key ≠ "livestock-medicine-dosage" → key ≠ "harvest-estimation" →
      key ≠ "planting-cost" →
      generateInputSummary key h root = safeJsonStringify h root)
    ∧ (∀ (h : JHeap) (root : Nat) (t : JTree), RepT h (.ref root) t →
        jsonStringifyPlain h root = .ok (specJsonOfTree t)
          ∧ safeJsonStringify h root = ⟨specJsonOfTree t⟩)
    ∧ (∀ (h : JHeap) (root : Nat) (e : JsonErr),
        jsonStringifyPlain h root = .error e →
        containsSeg (safeJsonStringify h root).data (("[Circular]").data)
          ∨ safeJsonStringify h root = "[Complex Object]") := by
  refine ⟨generateInputSummary_unknown, ?_, safeJsonStringify_errorCase⟩
  intro h root t hrep
  exact ⟨jsonStringifyPlain_rep h root t hrep, safeJsonStringify_rep h root t hrep⟩

/-- Witness for C7: an unknown key over the flat object `\x7b"a": 1\x7d`
falls back to its JSON serialisation, and over the self-referential object
`\x7b"self": <itself>\x7d` the plain serialisation fails yet the function
still returns `\x7b"self":"[Circular]"\x7d`-style output or
`[Complex Object]`. -/
theorem generateInputSummary_fallback_serialization_witness :
    (generateInputSummary "export-key" [[("a", JRef.num 1)]] 0 =
        safeJsonStringify [[("a", JRef.num 1)]] 0)
    ∧ (jsonStringifyPlain [[("a", JRef.num 1)]] 0 =
          .ok (specJsonOfTree (.obj (.cons "a" (.num 1) .nil)))
        ∧ safeJsonStringify [[("a", JRef.num 1)]] 0 =
          ⟨specJsonOfTree (.obj (.cons "a" (.num 1) .nil))⟩)
    ∧ (containsSeg (safeJsonStringify [[("self", JRef.ref 0)]] 0).data
          (("[Circular]").data)
        ∨ safeJsonStringify [[("self", JRef.ref 0)]] 0 = "[Complex Object]") := by
  refine ⟨?_, ?_, ?_⟩
  · exact generateInputSummary_fallback_serialization.1 "export-key" _ 0
      (by decide) (by decide) (by decide) (by decide) (by decide)
  · exact generateInputSummary_fallback_serialization.2.1 _ 0 _
      ⟨by decide, rfl, rfl, trivial⟩
  · exact generateInputSummary_fallback_serialization.2.2 _ 0 .cyclic (by decide)

end TaniHitung
